import Mathlib

/-!
Verification of the FolderRestructure_Automation engine.

The development gives a shallow embedding of the restructuring scripts
(src/restructure.py, src/restructurev3.py, src/v2restructure.py).  A raw
source tree is modelled by the inductive type `FS`; a tar.gz archive is a
file carrying its (flattened) member list together with a validity flag,
since every consumer of an extracted archive flattens it with a recursive
walk.  The engine is embedded as pure functions from the source tree to a
trace of filesystem effects (`Op`), listed in program order; paths in the
trace are relative to the freshly created output root (the uuid folder).
Executing a trace against an output tree is modelled by `applyOps`, which
returns `none` when the corresponding Python call would raise
(copy onto a directory, makedirs over a file, copy into a missing
directory); external failures such as disk errors are modelled by the
oracle-driven executor `execOps`.  Python library calls are translated as
follows: os.listdir is the stored entry order of a directory;
sorted(...) is lexicographic sorting by code points (`sortStr`);
str.lower, startswith, endswith and digit filtering are `pyLower`,
`pyStartsWith`, `pyEndsWith` and `pyDigits`.
-/

/-- Lexicographic comparison of char lists by code point, mirroring how
Python compares strings when sorting. -/
def lexLe : List Char → List Char → Bool
  | [], _ => true
  | _ :: _, [] => false
  | a :: as, b :: bs =>
    if a.toNat < b.toNat then true
    else if b.toNat < a.toNat then false
    else lexLe as bs

/-- Lexicographic order on strings by code point, as used by Python sorted. -/
def strLe (a b : String) : Bool := lexLe a.toList b.toList

/-- Insert a string into an already sorted list (helper for `sortStr`). -/
def insertSorted (x : String) : List String → List String
  | [] => [x]
  | y :: r => if strLe x y then x :: y :: r else y :: insertSorted x r

/-- Model of Python sorted(...) on a list of names. -/
def sortStr (l : List String) : List String := l.foldr insertSorted []

/-- Model of Python str.lower() (the names in this repository are ASCII). -/
def pyLower (s : String) : String := String.mk (s.toList.map Char.toLower)

/-- Model of Python str.startswith. -/
def pyStartsWith (s pre : String) : Bool := pre.toList.isPrefixOf s.toList

/-- Model of Python str.endswith. -/
def pyEndsWith (s suf : String) : Bool := suf.toList.isSuffixOf s.toList

/-- Model of "".join(filter(str.isdigit, s)): all digit characters of s
in order. -/
def pyDigits (s : String) : String := String.mk (s.toList.filter Char.isDigit)

/-- Numeric value of a nonempty digit string, as computed by Python int(). -/
def natOfDigits (l : List Char) : Nat :=
  l.foldl (fun n c => n * 10 + (c.toNat - '0'.toNat)) 0

/-- Raw filesystem trees.  A tar.gz archive is modelled as a file carrying
its member files (name, content) and a flag saying whether tarfile.open
succeeds on it; member paths are flattened because every consumer of an
extracted archive performs a flattening recursive walk. -/
inductive FS where
  | file (content : String)
  | tarFile (ok : Bool) (payload : List (String × String))
  | dir (entries : List (String × FS))

/-- Whether os.path.isfile holds for an entry. -/
def FS.isFile : FS → Bool
  | .dir _ => false
  | _ => true

/-- Whether os.path.isdir holds for an entry. -/
def FS.isDir : FS → Bool
  | .dir _ => true
  | _ => false

/-- Lookup of a name in a directory entry list (the filesystem resolves a
path component to the entry of that name). -/
def lookupE (es : List (String × FS)) (nm : String) : Option FS :=
  (es.find? (fun e => e.1 == nm)).map Prod.snd

/-- Replace the value stored under a name in an entry list. -/
def replaceE (es : List (String × FS)) (nm : String) (v : FS) : List (String × FS) :=
  es.map (fun e => if e.1 == nm then (nm, v) else e)

/-- Store a value under a name, overwriting an existing entry or appending
a new one. -/
def setE (es : List (String × FS)) (nm : String) (v : FS) : List (String × FS) :=
  if (lookupE es nm).isSome then replaceE es nm v else es ++ [(nm, v)]

/-- Remove the entry of a given name (model of shutil.rmtree with
ignore_errors=True on a direct child). -/
def eraseE (es : List (String × FS)) (nm : String) : List (String × FS) :=
  es.filter (fun p => p.1 != nm)

/-- Entry list of a tree; empty for non-directories.  The scripts only call
os.listdir on paths they checked or created as directories, except for the
corner cases noted at the call sites, where real code would raise. -/
def FS.entriesD : FS → List (String × FS)
  | .dir es => es
  | _ => []

/-- Model of os.listdir: the entry names of a directory in stored
(enumeration) order. -/
def FS.names (fs : FS) : List String := fs.entriesD.map Prod.fst

/-- Resolve a direct child by name (os.path.join one level down). -/
def FS.child (fs : FS) (nm : String) : Option FS := lookupE fs.entriesD nm

/-- Resolve a direct child, defaulting to an empty directory; used only
where the scripts already established existence. -/
def childD (fs : FS) (nm : String) : FS := (fs.child nm).getD (FS.dir [])

/-- The literal "log-run" as a char list. -/
def logRunSep : List Char := ['l', 'o', 'g', '-', 'r', 'u', 'n']

/-- Predicate for truncation at the first dash (Python split("-")[0]). -/
def notDash (c : Char) : Bool := c != '-'

/-- Model of Python substring containment (sub in s). -/
def containsSub (sep : List Char) : List Char → Bool
  | [] => sep.isPrefixOf []
  | c :: r => sep.isPrefixOf (c :: r) || containsSub sep r

/-- Prefix of a char list strictly before the first occurrence of sep; the
whole list when sep does not occur.  Together with `dropAfterFirst` this
expresses the element s.split(sep)[1] of a Python split. -/
def takeBeforeFirst (sep : List Char) : List Char → List Char
  | [] => []
  | c :: r => if sep.isPrefixOf (c :: r) then [] else c :: takeBeforeFirst sep r

/-- Suffix of a char list strictly after the first occurrence of sep; empty
when sep does not occur. -/
def dropAfterFirst (sep : List Char) : List Char → List Char
  | [] => []
  | c :: r => if sep.isPrefixOf (c :: r) then (c :: r).drop sep.length else dropAfterFirst sep r

/-- Instance-number classification of a filename, transliterated from
restructure.py lines 153-165 (identical at lines 183-194 and in the other
two scripts): when "log-run" occurs in the name, Python takes
filename.split("log-run")[1] (the text between the first and second
occurrence, i.e. takeBeforeFirst applied after dropAfterFirst), truncates
it at the first "-" (split("-")[0]), keeps its digit characters and feeds
them to int(); a ValueError on an empty digit string, or an absent
"log-run", defaults the instance number to 1. -/
def instanceNumList (f : List Char) : Nat :=
  if containsSub logRunSep f then
    let part := takeBeforeFirst logRunSep (dropAfterFirst logRunSep f)
    let seg := part.takeWhile notDash
    let ds := seg.filter Char.isDigit
    if ds.isEmpty then 1 else natOfDigits ds
  else 1

/-- Instance-number classification on strings. -/
def instanceNum (filename : String) : Nat := instanceNumList filename.toList

/-- Instance number as the specification words it: the digit characters
found in the span immediately following the first "log-run", up to the
next "-"; defaulting to 1 when no digits are found or "log-run" is
absent. -/
def instanceNumSpecList (f : List Char) : Nat :=
  if containsSub logRunSep f then
    let seg := (dropAfterFirst logRunSep f).takeWhile notDash
    let ds := seg.filter Char.isDigit
    if ds.isEmpty then 1 else natOfDigits ds
  else 1

/-- Instance-number specification on strings. -/
def instanceNumSpec (filename : String) : Nat := instanceNumSpecList filename.toList

theorem takeWhile_logRunSep_append (t : List Char) :
    (logRunSep ++ t).takeWhile notDash = ['l', 'o', 'g'] := rfl

theorem digits_takeWhile_takeBefore (l : List Char) :
    ((takeBeforeFirst logRunSep l).takeWhile notDash).filter Char.isDigit =
    (l.takeWhile notDash).filter Char.isDigit := by
  induction l using takeBeforeFirst.induct logRunSep with
  | case1 => rfl
  | case2 c r h =>
    obtain ⟨t, ht⟩ := List.isPrefixOf_iff_prefix.mp h
    rw [takeBeforeFirst, if_pos h, ← ht, takeWhile_logRunSep_append]
    rfl
  | case3 c r h ih =>
    rw [takeBeforeFirst, if_neg h]
    by_cases hc : c = '-'
    · subst hc
      simp [List.takeWhile_cons, notDash]
    · have hpc : notDash c = true := by simp [notDash, hc]
      rw [List.takeWhile_cons, List.takeWhile_cons, hpc]
      simp only [if_true, List.filter_cons]
      rw [ih]

theorem instanceNumList_eq_spec (f : List Char) :
    instanceNumList f = instanceNumSpecList f := by
  simp only [instanceNumList, instanceNumSpecList, digits_takeWhile_takeBefore]

/-- One filesystem effect of the engine.  mkdir models os.makedirs with
exist_ok=True; copyFile models shutil.copy of the entry `data` (recorded
with its source path) into the destination directory, where it lands under
`name`; copyTree models shutil.copytree(..., dirs_exist_ok=True) of the
subtree `tree` to the destination directory joined with `name`.  All
destination paths are relative to the freshly allocated output root. -/
inductive Op where
  | mkdir (p : List String)
  | copyFile (src : List String) (data : FS) (dstDir : List String) (name : String)
  | copyTree (src : List String) (tree : FS) (dstDir : List String) (name : String)

/-- Whether an operation writes artifact content (a copy, as opposed to a
directory creation). -/
def Op.isWrite : Op → Bool
  | .mkdir _ => false
  | _ => true

/-- First component of the destination path of an operation. -/
def Op.dstHead : Op → Option String
  | .mkdir p => p.head?
  | .copyFile _ _ d _ => d.head?
  | .copyTree _ _ d _ => d.head?

/-- Full destination paths materialized by an operation. -/
def Op.dstPaths : Op → List (List String)
  | .mkdir p => [p]
  | .copyFile _ _ d nm => [d ++ [nm]]
  | .copyTree _ _ d nm => [d ++ [nm]]

/-- Canonical run-directory name run{n}. -/
def runStr (n : Nat) : String := "run" ++ toString n

/-- SUT folder discovery, restructure.py lines 33-39: top-level directories
whose lowercased name starts with vm or sut, in enumeration order. -/
def sutsOf (src : FS) : List String :=
  (src.entriesD.filter (fun p =>
    p.2.isDir && (pyStartsWith (pyLower p.1) "vm" || pyStartsWith (pyLower p.1) "sut"))).map Prod.fst

/-- SUT name normalization, restructure.py line 49: SUT plus the remainder
after the two-character vm prefix, or after the three-character sut
prefix. -/
def sutName (sut : String) : String :=
  if pyStartsWith (pyLower sut) "vm" then "SUT" ++ String.mk (sut.toList.drop 2)
  else "SUT" ++ String.mk (sut.toList.drop 3)

/-- Operations for one sorted PlatformProfile subfolder assigned run index
idx, restructure.py lines 76-83: the run directory is created
unconditionally and the top-level files of the subfolder are copied into
it. -/
def ppRunOps (c folderName : String) (f : FS) (idx : Nat) (sub : String) : List Op :=
  Op.mkdir [c, "PlatformProfiler", runStr idx] ::
  (childD f sub).entriesD.flatMap (fun p =>
    if p.2.isFile then
      [Op.copyFile [folderName, sub, p.1] p.2 [c, "PlatformProfiler", runStr idx] p.1]
    else [])

/-- PlatformProfilerMapper for one candidate folder name, restructure.py
lines 62-83: flat files are copied directly when no subfolder exists,
otherwise the sorted subfolders become run1..runN. -/
def ppCandidateOps (c : String) (src : FS) (folderName : String) : List Op :=
  match src.child folderName with
  | none => []
  | some f =>
    let subdirs := (f.names).filter (fun nm => (childD f nm).isDir)
    let files := (f.names).filter (fun nm => (childD f nm).isFile)
    if !files.isEmpty && subdirs.isEmpty then
      files.map (fun nm => Op.copyFile [folderName, nm] (childD f nm) [c, "PlatformProfiler"] nm)
    else if !subdirs.isEmpty then
      ((sortStr subdirs).enumFrom 1).flatMap (fun q => ppRunOps c folderName f q.1 q.2)
    else []

/-- PlatformProfilerMapper over both fixed candidate names, restructure.py
line 62. -/
def ppOps (c : String) (src : FS) : List Op :=
  ppCandidateOps c src "PlatformProfile" ++ ppCandidateOps c src "Host-pp"

/-- WorkloadProfiler folder search, restructure.py lines 86-92: the first
top-level entry in enumeration order whose lowercased name starts with
wp- and ends with the digit characters of the raw SUT name. -/
def wpFolderName (src : FS) (sut : String) : Option String :=
  (src.names).find? (fun cand =>
    pyStartsWith (pyLower cand) "wp-" && pyEndsWith (pyLower cand) (pyLower (pyDigits sut)))

/-- Iteration subfolders of a WorkloadProfiler source folder,
restructure.py lines 101-102, in enumeration order. -/
def wpIterFolders (wp : FS) : List String :=
  (wp.entriesD.filter (fun p => p.2.isDir && pyStartsWith (pyLower p.1) "iteration")).map Prod.fst

/-- WorkloadProfilerMapper for one SUT in multi-system mode,
restructure.py lines 94-113: the json-named entries are sorted, the
1-based sort position is the run index, and each file is copied into every
iteration subfolder of its run slot, or into iteration1 when none
exists. -/
def wpOps (c : String) (src : FS) (sut : String) : List Op :=
  match wpFolderName src sut with
  | none => []
  | some w =>
    let wp := childD src w
    let wpFiles := sortStr ((wp.names).filter (fun f => pyEndsWith (pyLower f) ".json"))
    (wpFiles.enumFrom 1).flatMap (fun q =>
      let iters := wpIterFolders wp
      if iters.isEmpty then
        [Op.mkdir [c, "WorkloadProfiler", runStr q.1, "iteration1"],
         Op.copyFile [w, q.2] (childD wp q.2) [c, "WorkloadProfiler", runStr q.1, "iteration1"] q.2]
      else
        iters.flatMap (fun iteration =>
          [Op.mkdir [c, "WorkloadProfiler", runStr q.1, iteration],
           Op.copyFile [w, q.2] (childD wp q.2) [c, "WorkloadProfiler", runStr q.1, iteration] q.2]))

/-- ResultsReconciler, pre-existing instance subfolder case,
restructure.py lines 138-148: the instance structure is copied as-is,
files directly and subdirectories with copytree. -/
def resultsInstanceOps (c sutRaw runDirName : String) (n : Nat) (iteration : String)
    (itFS : FS) (instName : String) : List Op :=
  Op.mkdir [c, "Results", runStr n, iteration, instName] ::
  (childD itFS instName).entriesD.flatMap (fun p =>
    if p.2.isFile then
      [Op.copyFile [sutRaw, runDirName, iteration, instName, p.1] p.2
        [c, "Results", runStr n, iteration, instName] p.1]
    else
      [Op.copyTree [sutRaw, runDirName, iteration, instName, p.1] p.2
        [c, "Results", runStr n, iteration, instName] p.1])

/-- ResultsReconciler, iteration without instance subfolders,
restructure.py lines 149-174: each top-level file is classified by
`instanceNum` and copied into its synthesized instance folder; a
subdirectory is copied wholesale under instance1. -/
def resultsIterLooseOps (c sutRaw runDirName : String) (n : Nat) (iteration : String)
    (itFS : FS) : List Op :=
  itFS.entriesD.flatMap (fun p =>
    if p.2.isFile then
      [Op.mkdir [c, "Results", runStr n, iteration, "instance" ++ toString (instanceNum p.1)],
       Op.copyFile [sutRaw, runDirName, iteration, p.1] p.2
         [c, "Results", runStr n, iteration, "instance" ++ toString (instanceNum p.1)] p.1]
    else
      [Op.mkdir [c, "Results", runStr n, iteration, "instance1"],
       Op.copyTree [sutRaw, runDirName, iteration, p.1] p.2
         [c, "Results", runStr n, iteration, "instance1"] p.1])

/-- ResultsReconciler, NoIterations state, restructure.py lines 175-198:
when a subdirectory named BenchmarkLog exists its contents substitute for
the run directory contents (the code only tests os.path.exists; a
BenchmarkLog that is a regular file would make os.listdir raise, which
this total model does not reproduce, so the theorems that rely on this
state assume BenchmarkLog is absent or a directory); each file is
classified by `instanceNum` into Results/run{n}/iteration1/instance{m};
subdirectories produce no copy at all. -/
def resultsNoIterOps (c sutRaw runDirName : String) (n : Nat) (rd : FS) : List Op :=
  let useBench := (rd.child "BenchmarkLog").isSome
  let itemsFS := if useBench then childD rd "BenchmarkLog" else rd
  let srcBase := if useBench then [sutRaw, runDirName, "BenchmarkLog"] else [sutRaw, runDirName]
  itemsFS.entriesD.flatMap (fun p =>
    if p.2.isFile then
      [Op.mkdir [c, "Results", runStr n, "iteration1", "instance" ++ toString (instanceNum p.1)],
       Op.copyFile (srcBase ++ [p.1]) p.2
         [c, "Results", runStr n, "iteration1", "instance" ++ toString (instanceNum p.1)] p.1]
    else [])

/-- ResultsReconciler for one raw run directory holding run index n,
restructure.py lines 124-198: the state is HasIterations when at least one
subdirectory matches iteration case-insensitively, else NoIterations. -/
def processRunDir (c sutRaw : String) (n : Nat) (runDirName : String) (rd : FS) : List Op :=
  if (rd.entriesD.filter (fun p => p.2.isDir && pyStartsWith (pyLower p.1) "iteration")).isEmpty
  then resultsNoIterOps c sutRaw runDirName n rd
  else
    (rd.entriesD.filter (fun p => p.2.isDir && pyStartsWith (pyLower p.1) "iteration")).flatMap
      (fun q =>
        if (q.2.entriesD.filter (fun p => p.2.isDir)).isEmpty then
          resultsIterLooseOps c sutRaw runDirName n q.1 q.2
        else
          (q.2.entriesD.filter (fun p => p.2.isDir)).flatMap
            (fun ip => resultsInstanceOps c sutRaw runDirName n q.1 q.2 ip.1))

/-- ResultsReconciler loop, restructure.py lines 119-200: the sorted raw
entries are scanned; a non-directory is skipped without consuming a run
index; a directory is processed with the current index and the index is
incremented. -/
def resultsGo (c sutRaw : String) (vm : FS) : List String → Nat → List Op
  | [], _ => []
  | nm :: rest, n =>
    match vm.child nm with
    | some e =>
      if e.isDir then processRunDir c sutRaw n nm e ++ resultsGo c sutRaw vm rest (n + 1)
      else resultsGo c sutRaw vm rest n
    | none => resultsGo c sutRaw vm rest n

/-- ResultsReconciler entry point for one SUT. -/
def resultsOps (c sutRaw : String) (vm : FS) : List Op :=
  resultsGo c sutRaw vm (sortStr vm.names) 1

/-- Trace of one multi-system SUT iteration, restructure.py lines 47-200:
the SUT root and its three canonical subdirectories are created, then the
three mappers run. -/
def sutBlock (src : FS) (sut : String) : List Op :=
  [Op.mkdir [sutName sut], Op.mkdir [sutName sut, "PlatformProfiler"],
   Op.mkdir [sutName sut, "WorkloadProfiler"], Op.mkdir [sutName sut, "Results"]] ++
  ppOps (sutName sut) src ++ wpOps (sutName sut) src sut ++
  resultsOps (sutName sut) sut (childD src sut)

/-- RootFileReplicator in multi-system mode, restructure.py lines 202-211:
every top-level regular file is copied into the root of every canonical
SUT directory. -/
def rootOpsMulti (src : FS) : List Op :=
  src.entriesD.flatMap (fun p =>
    if p.2.isFile then (sutsOf src).map (fun sut => Op.copyFile [p.1] p.2 [sutName sut] p.1)
    else [])

/-- Full multi-system trace (Case 1), restructure.py lines 44-211. -/
def case1Trace (src : FS) : List Op :=
  (sutsOf src).flatMap (sutBlock src) ++ rootOpsMulti src

/-- Sorted top-level subdirectories of the raw Logs folder,
restructure.py lines 230-239. -/
def case2LogSubfolders (src : FS) : List String :=
  match src.child "Logs" with
  | some logs => sortStr ((logs.names).filter (fun d => (childD logs d).isDir))
  | none => []

/-- Number of result runs in single-system mode, restructure.py
lines 232-239: the count of Logs subfolders, defaulting to 1. -/
def case2NumRuns (src : FS) : Nat :=
  if (case2LogSubfolders src).isEmpty then 1 else (case2LogSubfolders src).length

/-- Whether a name qualifies as a WorkloadProfiler artifact,
restructure.py line 251. -/
def isWpArtifactName (nm : String) : Bool :=
  pyEndsWith (pyLower nm) ".json" || pyEndsWith (pyLower nm) ".tar.gz"

/-- Scan of the sorted WorkloadProfiler items with break on the first
regular file whose lowercased name ends in .json or .tar.gz,
restructure.py lines 249-261. -/
def findFirstArtifact (wp : FS) : List String → Option (String × FS)
  | [] => none
  | nm :: rest =>
    match wp.child nm with
    | some e => if e.isFile && isWpArtifactName nm then some (nm, e) else findFirstArtifact wp rest
    | none => findFirstArtifact wp rest

/-- The selected single-system WorkloadProfiler artifact,
restructure.py lines 242-261. -/
def case2Artifact (src : FS) : Option (String × FS) :=
  match src.child "WorkloadProfiler" with
  | some wp => findFirstArtifact wp (sortStr wp.names)
  | none => none

/-- Content replicated per run for the selected artifact.  A loose file is
copied as is (restructure.py line 289).  For a tar artifact the files of
the extraction are copied by a flattening walk (lines 282-286); the
helper extract_tar_gz only acts when the path ends in ".tar.gz"
case-sensitively (line 9) and a TarError leaves the extraction directory
empty (lines 11-16), so nothing is replicated in those cases. -/
def artifactCopyList (nm : String) (e : FS) : List (String × FS) :=
  if pyEndsWith (pyLower nm) ".tar.gz" then
    if pyEndsWith nm ".tar.gz" then
      match e with
      | .tarFile true payload => payload.map (fun p => (p.1, FS.file p.2))
      | _ => []
    else []
  else [(nm, e)]

/-- Shared-artifact replication in single-system mode, restructure.py
lines 273-289: the one artifact is replicated into
WorkloadProfiler/run{k}/iteration1 for k = 1..num_runs. -/
def case2WpRepOps (src : FS) : List Op :=
  match case2Artifact src with
  | none => []
  | some a =>
    (List.range (case2NumRuns src)).flatMap (fun k =>
      Op.mkdir ["SUT1", "WorkloadProfiler", runStr (k + 1), "iteration1"] ::
      (artifactCopyList a.1 a.2).map (fun p =>
        Op.copyFile ["WorkloadProfiler", a.1] p.2
          ["SUT1", "WorkloadProfiler", runStr (k + 1), "iteration1"] p.1))

/-- Root-level file handling in single-system mode, restructure.py
lines 326-343: a file named epyc_manual_result.json case-insensitively
goes to the SUT root; every other file ending in .json or .txt goes into
Results/run1/iteration1/instance1; anything else is skipped. -/
def rootOpsSingle (src : FS) : List Op :=
  src.entriesD.flatMap (fun p =>
    if !p.2.isFile then []
    else if pyLower p.1 == "epyc_manual_result.json" then
      [Op.copyFile [p.1] p.2 ["SUT1"] p.1]
    else if pyEndsWith (pyLower p.1) ".json" || pyEndsWith (pyLower p.1) ".txt" then
      [Op.mkdir ["SUT1", "Results", "run1", "iteration1", "instance1"],
       Op.copyFile [p.1] p.2 ["SUT1", "Results", "run1", "iteration1", "instance1"] p.1]
    else [])

/-- Temporary extraction folder name used by restructurev3.py line 252;
unlike restructure.py (which appends a fresh uuid, line 257) the name is
derived deterministically from the current run index. -/
def v3TempName (runIdx : Nat) : String := "extracted_wp_temp_" ++ toString runIdx

/-- Extraction of a tar payload into a directory (tar.extractall): each
member file is written, overwriting a file of the same name. -/
def extractInto (payload : List (String × String)) (d : FS) : FS :=
  match d with
  | .dir es => .dir (payload.foldl (fun acc p => setE acc p.1 (.file p.2)) es)
  | other => other

mutual
/-- Files found by os.walk on a tree, flattened: the files of the root in
order, then the files of each subdirectory recursively. -/
def walkFiles : FS → List (String × FS)
  | .dir es => es.filter (fun p => p.2.isFile) ++ walkSubdirs es
  | _ => []
/-- Per-subdirectory part of `walkFiles`. -/
def walkSubdirs : List (String × FS) → List (String × FS)
  | [] => []
  | p :: rest => (if p.2.isDir then walkFiles p.2 else []) ++ walkSubdirs rest
end

/-- One iteration of the restructurev3.py single-system WorkloadProfiler
loop (lines 245-276) over live source state: es is the current entry list
of the WorkloadProfiler source folder.  A name ending in ".tar.gz" is
extracted into the deterministically named temp folder inside the source
folder (creating it, or merging into a pre-existing directory of that
name), its files are copied by a flattening walk into the run slot, the
temp folder is removed with rmtree and the run index advances; a live
regular file is copied into the run slot and the run index advances;
anything else is skipped.  A missing or non-regular entry under a
.tar.gz name, where tarfile.open would raise an uncaught non-TarError,
is modelled as extracting nothing. -/
def v3WpStep (es : List (String × FS)) (runIdx : Nat) (item : String) :
    List Op × List (String × FS) × Nat :=
  if pyEndsWith item ".tar.gz" then
    let temp0 := match lookupE es (v3TempName runIdx) with
      | some d => d
      | none => FS.dir []
    let extracted := match lookupE es item with
      | some (.tarFile true payload) => extractInto payload temp0
      | _ => temp0
    (Op.mkdir ["SUT1", "WorkloadProfiler", runStr runIdx, "iteration1"] ::
      (walkFiles extracted).map (fun p =>
        Op.copyFile ["WorkloadProfiler", v3TempName runIdx, p.1] p.2
          ["SUT1", "WorkloadProfiler", runStr runIdx, "iteration1"] p.1),
     eraseE es (v3TempName runIdx), runIdx + 1)
  else
    match lookupE es item with
    | some e =>
      if e.isFile then
        ([Op.mkdir ["SUT1", "WorkloadProfiler", runStr runIdx, "iteration1"],
          Op.copyFile ["WorkloadProfiler", item] e
            ["SUT1", "WorkloadProfiler", runStr runIdx, "iteration1"] item],
         es, runIdx + 1)
      else ([], es, runIdx)
    | none => ([], es, runIdx)

/-- The restructurev3.py single-system WorkloadProfiler loop over the item
names captured before the loop (line 242), threading the live source
state. -/
def v3WpGo : List String → List (String × FS) → Nat → List Op × List (String × FS)
  | [], es, _ => ([], es)
  | item :: rest, es, runIdx =>
    let s := v3WpStep es runIdx item
    let r := v3WpGo rest s.2.1 s.2.2
    (s.1 ++ r.1, r.2)

/-- Full run of the restructurev3.py single-system WorkloadProfiler
handling on a WorkloadProfiler source folder: the produced output
operations and the final entry list of the source folder. -/
def v3WpRun (wp : FS) : List Op × List (String × FS) :=
  v3WpGo (sortStr wp.names) wp.entriesD 1

/-- Model of os.makedirs(path, exist_ok=True): missing directories along
the path are created; an existing regular file along the path makes the
call raise, returning none. -/
def mkdirp : FS → List String → Option FS
  | .dir es, [] => some (.dir es)
  | .dir es, s :: r =>
    match lookupE es s with
    | some c =>
      if c.isDir then (mkdirp c r).map (fun d => .dir (replaceE es s d))
      else none
    | none => (mkdirp (.dir []) r).map (fun d => .dir (es ++ [(s, d)]))
  | _, _ => none

/-- Model of shutil.copy(data, dstDir) placing the file under name: the
destination directory must exist, a destination entry that is a directory
or a source that is itself a directory makes the call raise. -/
def insertFileAt : FS → List String → String → FS → Option FS
  | .dir es, [], nm, data =>
    if !data.isFile then none
    else
      match lookupE es nm with
      | some (.dir _) => none
      | some _ => some (.dir (replaceE es nm data))
      | none => some (.dir (es ++ [(nm, data)]))
  | .dir es, s :: r, nm, data =>
    match lookupE es s with
    | some c => (insertFileAt c r nm data).map (fun d => .dir (replaceE es s d))
    | none => none
  | _, _, _, _ => none

mutual
/-- Merge the entries of a copied tree into a destination entry list,
overwriting files and recursively merging directories; a file/directory
kind clash makes the corresponding Python copy raise, returning none. -/
def mergeList (dEs : List (String × FS)) : List (String × FS) → Option (List (String × FS))
  | [] => some dEs
  | p :: rest =>
    match mergeEntry dEs p.1 p.2 with
    | some d => mergeList d rest
    | none => none
/-- Merge one named entry into a destination entry list. -/
def mergeEntry (dEs : List (String × FS)) (nm : String) (e : FS) : Option (List (String × FS)) :=
  match e with
  | .dir sSub =>
    match lookupE dEs nm with
    | some (.dir dSub) => (mergeList dSub sSub).map (fun m => replaceE dEs nm (.dir m))
    | some _ => none
    | none => some (dEs ++ [(nm, .dir sSub)])
  | f =>
    match lookupE dEs nm with
    | some (.dir _) => none
    | some _ => some (replaceE dEs nm f)
    | none => some (dEs ++ [(nm, f)])
end

/-- Apply `mergeList` at the end of an existing directory path. -/
def mergeAt : FS → List String → List (String × FS) → Option FS
  | .dir es, [], tEs => (mergeList es tEs).map FS.dir
  | .dir es, s :: r, tEs =>
    match lookupE es s with
    | some c => (mergeAt c r tEs).map (fun d => .dir (replaceE es s d))
    | none => none
  | _, _, _ => none

/-- Model of shutil.copytree(tree, dstDir/name, dirs_exist_ok=True): the
destination directory chain is created, then the tree entries are merged
into it; copying a non-directory this way raises. -/
def insertTreeAt (st : FS) (dstDir : List String) (nm : String) (tree : FS) : Option FS :=
  match tree with
  | .dir tEs =>
    match mkdirp st (dstDir ++ [nm]) with
    | some st1 => mergeAt st1 (dstDir ++ [nm]) tEs
    | none => none
  | _ => none

/-- Apply one operation to the output tree under construction. -/
def applyOp (st : FS) : Op → Option FS
  | .mkdir p => mkdirp st p
  | .copyFile _ data dstDir nm => insertFileAt st dstDir nm data
  | .copyTree _ tree dstDir nm => insertTreeAt st dstDir nm tree

/-- Apply a trace in order; the first raising operation aborts. -/
def applyOps (st : FS) : List Op → Option FS
  | [] => some st
  | o :: rest =>
    match applyOp st o with
    | some st1 => applyOps st1 rest
    | none => none

/-- Whether a path denotes an existing directory of the tree. -/
def isDirAt : FS → List String → Bool
  | .dir _, [] => true
  | .dir es, s :: r =>
    (match lookupE es s with
     | some c => isDirAt c r
     | none => false)
  | _, _ => false

/-- Abort-on-first-failure execution of a trace under an external failure
oracle (disk full, permission denied, ...).  No operation of the engine is
wrapped in an exception handler, so the first failing operation
propagates: the result records the successfully executed prefix and the
failing operation, and nothing after it runs. -/
def execOps (fails : Op → Bool) : List Op → Except (List Op × Op) (List Op)
  | [] => .ok []
  | o :: rest =>
    if fails o then .error ([], o)
    else
      match execOps fails rest with
      | .ok l => .ok (o :: l)
      | .error q => .error (o :: q.1, q.2)

theorem pyEndsWith_empty (s : String) : pyEndsWith s "" = true := by
  simp [pyEndsWith, List.isSuffixOf]

/-- C5: for every file classified in a Results iteration without instance
folders (or in the NoIterations state), the engine computes the instance
number with `instanceNum`; this equals the specification reading (the
digit characters in the span immediately after "log-run", up to the next
dash, defaulting to 1 when unparseable or when "log-run" is absent), and
in particular log-run2-x.txt is classified into instance2 and notes.txt
into instance1. -/
theorem C5_instance_number_parse :
    (∀ f : String, instanceNum f = instanceNumSpec f) ∧
    instanceNum "log-run2-x.txt" = 2 ∧ instanceNum "notes.txt" = 1 :=
  ⟨fun f => instanceNumList_eq_spec f.toList, by decide, by decide⟩

/-- C10: for a SUT whose raw folder name contains no digit, the
numeric-match-key is empty, endswith on the empty key always holds, and
the WorkloadProfiler search degenerates to the first top-level entry in
enumeration order whose lowercased name starts with wp-, regardless of
trailing digits in the candidate name. -/
theorem C10_empty_key_matches_first_wp (src : FS) (sut : String)
    (h : pyDigits sut = "") :
    wpFolderName src sut =
      (src.names).find? (fun cand => pyStartsWith (pyLower cand) "wp-") := by
  unfold wpFolderName
  rw [h]
  have hfun : (fun cand => pyStartsWith (pyLower cand) "wp-" &&
      pyEndsWith (pyLower cand) (pyLower "")) =
      (fun cand => pyStartsWith (pyLower cand) "wp-") := by
    funext cand
    have : pyLower "" = "" := rfl
    rw [this, pyEndsWith_empty, Bool.and_true]
  rw [hfun]

/-- Concrete source tree for the C10 witness: the raw SUT folder "vm" has
no digits, and the first wp- candidate in enumeration order carries a
trailing digit. -/
def c10src : FS := .dir
  [("vm", .dir []),
   ("wp-node9", .dir [("a.json", .file "a")]),
   ("wp-other", .dir [])]

theorem C10_empty_key_matches_first_wp_witness :
    pyDigits "vm" = "" ∧ wpFolderName c10src "vm" = some "wp-node9" :=
  ⟨by decide, by
    rw [C10_empty_key_matches_first_wp c10src "vm" (by decide)]
    decide⟩

/-- Payload of the well-formed archive used in the C1 failing input. -/
def c1Payload : List (String × String) := [("data.txt", "d")]

/-- Failing input for C1: a single-system WorkloadProfiler source folder
holding a valid archive b.tar.gz together with a pre-existing directory
whose name collides with the deterministic temp-folder name that
restructurev3.py uses for the first run index. -/
def c1wpEx : FS := .dir
  [("b.tar.gz", .tarFile true c1Payload),
   ("extracted_wp_temp_1", .dir [("keep.txt", .file "k")])]

/-- C1: the claim says the source tree is never created into, deleted
from or modified across any scenario.  restructurev3.py violates this: on
the failing input the archive is extracted into the colliding
WorkloadProfiler/extracted_wp_temp_1 directory and the subsequent rmtree
deletes that pre-existing source directory, so the source folder entries
after the run differ from the entries before (the directory and its file
keep.txt are gone); the walk also leaks keep.txt into the output run
slot. -/
theorem C1_v3_deletes_preexisting_source_dir :
    lookupE c1wpEx.entriesD "extracted_wp_temp_1" =
      some (FS.dir [("keep.txt", FS.file "k")]) ∧
    lookupE (v3WpRun c1wpEx).2 "extracted_wp_temp_1" = none ∧
    (v3WpRun c1wpEx).2 = [("b.tar.gz", FS.tarFile true c1Payload)] ∧
    Op.copyFile ["WorkloadProfiler", "extracted_wp_temp_1", "keep.txt"] (FS.file "k")
      ["SUT1", "WorkloadProfiler", "run1", "iteration1"] "keep.txt" ∈ (v3WpRun c1wpEx).1 := by
  refine ⟨rfl, rfl, rfl, ?_⟩
  show _ ∈ (v3WpRun c1wpEx).1
  have : (v3WpRun c1wpEx).1 =
      [Op.mkdir ["SUT1", "WorkloadProfiler", "run1", "iteration1"],
       Op.copyFile ["WorkloadProfiler", "extracted_wp_temp_1", "keep.txt"] (FS.file "k")
         ["SUT1", "WorkloadProfiler", "run1", "iteration1"] "keep.txt",
       Op.copyFile ["WorkloadProfiler", "extracted_wp_temp_1", "data.txt"] (FS.file "d")
         ["SUT1", "WorkloadProfiler", "run1", "iteration1"] "data.txt"] := rfl
  rw [this]
  simp

theorem eraseE_of_lookup_none (es : List (String × FS)) (nm : String)
    (h : lookupE es nm = none) : eraseE es nm = es := by
  rw [eraseE, List.filter_eq_self]
  intro p hp
  simp only [lookupE, Option.map_eq_none', List.find?_eq_none] at h
  simpa using h p hp

theorem execOps_ok_of_no_failure (fails : Op → Bool) (ops : List Op)
    (h : ∀ op ∈ ops, fails op = false) : execOps fails ops = .ok ops := by
  induction ops with
  | nil => rfl
  | cons o rest ih =>
    have ho := h o (by simp)
    rw [execOps]
    simp [ho, ih (fun op hop => h op (by simp [hop]))]

theorem execOps_aborts_at_first_failure (fails : Op → Bool) (pre suf : List Op) (o : Op)
    (h1 : ∀ op ∈ pre, fails op = false) (h2 : fails o = true) :
    execOps fails (pre ++ o :: suf) = .error (pre, o) := by
  induction pre with
  | nil => simp [execOps, h2]
  | cons p rest ih =>
    have hp := h1 p (by simp)
    rw [List.cons_append, execOps]
    simp [hp, ih (fun op hop => h1 op (by simp [hop]))]

theorem v3WpStep_corrupt_tar (es : List (String × FS)) (n : Nat) (item : String)
    (pl : List (String × String))
    (hname : pyEndsWith item ".tar.gz" = true)
    (hlook : lookupE es item = some (.tarFile false pl))
    (htemp : lookupE es (v3TempName n) = none) :
    v3WpStep es n item =
      ([Op.mkdir ["SUT1", "WorkloadProfiler", runStr n, "iteration1"]], es, n + 1) := by
  rw [v3WpStep, if_pos hname, hlook, htemp, eraseE_of_lookup_none es (v3TempName n) htemp]
  rfl

/-- C9: a failure to open or extract a tar.gz archive is caught locally
(extract_tar_gz lines 11-16): in the trace model a corrupt archive simply
contributes no copy operation while the run slot is still created, the run
index still advances and the remaining items are still processed; whereas
any external filesystem write failure hits an operation of the trace that
no handler guards, so execution aborts at the first failing operation,
nothing after it runs, and the error propagates (first two conjuncts, the
abort semantics of `execOps`; last conjunct, the corrupt-archive step of
the restructurev3.py WorkloadProfiler loop). -/
theorem C9_error_asymmetry :
    (∀ (fails : Op → Bool) (ops : List Op),
      (∀ op ∈ ops, fails op = false) → execOps fails ops = .ok ops) ∧
    (∀ (fails : Op → Bool) (pre suf : List Op) (o : Op),
      (∀ op ∈ pre, fails op = false) → fails o = true →
      execOps fails (pre ++ o :: suf) = .error (pre, o)) ∧
    (∀ (es : List (String × FS)) (n : Nat) (item : String)
      (pl : List (String × String)) (rest : List String),
      pyEndsWith item ".tar.gz" = true →
      lookupE es item = some (.tarFile false pl) →
      lookupE es (v3TempName n) = none →
      (v3WpStep es n item).1 = [Op.mkdir ["SUT1", "WorkloadProfiler", runStr n, "iteration1"]] ∧
      v3WpGo (item :: rest) es n =
        ([Op.mkdir ["SUT1", "WorkloadProfiler", runStr n, "iteration1"]] ++ (v3WpGo rest es (n + 1)).1,
         (v3WpGo rest es (n + 1)).2)) := by
  refine ⟨execOps_ok_of_no_failure, execOps_aborts_at_first_failure, ?_⟩
  intro es n item pl rest hname hlook htemp
  have hs := v3WpStep_corrupt_tar es n item pl hname hlook htemp
  constructor
  · rw [hs]
  · rw [v3WpGo, hs]

/-- Failure oracle for the C9 witness: exactly the operation creating the
directory x fails. -/
def c9fails : Op → Bool
  | .mkdir p => p == ["x"]
  | _ => false

/-- Source entries for the C9 witness: one corrupt archive. -/
def c9es : List (String × FS) := [("bad.tar.gz", .tarFile false [("m.json", "j")])]

theorem C9_error_asymmetry_witness :
    execOps c9fails [Op.mkdir ["a"], Op.mkdir ["x"], Op.mkdir ["b"]] =
      .error ([Op.mkdir ["a"]], Op.mkdir ["x"]) ∧
    (v3WpStep c9es 1 "bad.tar.gz").1 =
      [Op.mkdir ["SUT1", "WorkloadProfiler", "run1", "iteration1"]] := by
  constructor
  · have h := C9_error_asymmetry.2.1 c9fails [Op.mkdir ["a"]] [Op.mkdir ["b"]] (Op.mkdir ["x"])
      (by intro op hop; simp at hop; rw [hop]; rfl) rfl
    exact h
  · have h := (C9_error_asymmetry.2.2 c9es 1 "bad.tar.gz" [("m.json", "j")] []
      (by decide) rfl rfl).1
    exact h

theorem mem_enumFrom_iff {α : Type} (l : List α) (n : Nat) (q : Nat × α) :
    q ∈ l.enumFrom n ↔ ∃ j, l.get? j = some q.2 ∧ q.1 = n + j := by
  induction l generalizing n with
  | nil => simp [List.enumFrom]
  | cons a rest ih =>
    rw [List.enumFrom, List.mem_cons]
    constructor
    · intro hq
      rcases hq with h | h
      · subst h
        exact ⟨0, rfl, rfl⟩
      · obtain ⟨j, hj, hq1⟩ := (ih (n + 1)).mp h
        exact ⟨j + 1, by simpa using hj, by omega⟩
    · rintro ⟨j, hj, hq1⟩
      cases j with
      | zero =>
        left
        obtain ⟨q1, q2⟩ := q
        simp only [List.get?] at hj
        injection hj with hj
        simp only at hq1
        simp [Prod.ext_iff, hj, hq1]
      | succ j =>
        right
        refine (ih (n + 1)).mpr ⟨j, by simpa using hj, by omega⟩

/-- Raw item list of the NoIterations state as the specification words it:
the top-level contents of a subdirectory literally named BenchmarkLog when
one exists, else the top-level contents of the run directory itself. -/
def c4Items (rd : FS) : List (String × FS) :=
  match rd.child "BenchmarkLog" with
  | some b => if b.isDir then b.entriesD else rd.entriesD
  | none => rd.entriesD

/-- Source path base of the items chosen by the NoIterations state. -/
def c4SrcBase (sutRaw runDirName : String) (rd : FS) : List String :=
  if (rd.child "BenchmarkLog").isSome then [sutRaw, runDirName, "BenchmarkLog"]
  else [sutRaw, runDirName]

/-- C4: in the NoIterations state (no subdirectory matching iteration
case-insensitively; BenchmarkLog absent or a directory, since a regular
file of that name would make the script raise at os.listdir) the run
directory contents are replaced by the BenchmarkLog contents when that
subdirectory exists; every operation targets
Results/run{n}/iteration1/instance{m} (no other iteration name is ever
produced); and the only copies are of the chosen top-level files, each
into its classified instance folder, while subdirectories produce no copy
at all. -/
theorem C4_noiterations_state (c sutRaw runDirName : String) (n : Nat) (rd : FS)
    (hni : rd.entriesD.filter (fun p => p.2.isDir && pyStartsWith (pyLower p.1) "iteration") = [])
    (hb : ∀ e, rd.child "BenchmarkLog" = some e → e.isDir = true) :
    processRunDir c sutRaw n runDirName rd =
      (c4Items rd).flatMap (fun p =>
        if p.2.isFile then
          [Op.mkdir [c, "Results", runStr n, "iteration1",
             "instance" ++ toString (instanceNum p.1)],
           Op.copyFile (c4SrcBase sutRaw runDirName rd ++ [p.1]) p.2
             [c, "Results", runStr n, "iteration1",
              "instance" ++ toString (instanceNum p.1)] p.1]
        else []) ∧
    (∀ op ∈ processRunDir c sutRaw n runDirName rd, ∀ q ∈ op.dstPaths,
      q.take 4 = [c, "Results", runStr n, "iteration1"]) ∧
    (∀ op ∈ processRunDir c sutRaw n runDirName rd, op.isWrite = true →
      ∃ p, p ∈ c4Items rd ∧ p.2.isFile = true ∧
        op = Op.copyFile (c4SrcBase sutRaw runDirName rd ++ [p.1]) p.2
          [c, "Results", runStr n, "iteration1",
           "instance" ++ toString (instanceNum p.1)] p.1) := by
  have heq : processRunDir c sutRaw n runDirName rd =
      (c4Items rd).flatMap (fun p =>
        if p.2.isFile then
          [Op.mkdir [c, "Results", runStr n, "iteration1",
             "instance" ++ toString (instanceNum p.1)],
           Op.copyFile (c4SrcBase sutRaw runDirName rd ++ [p.1]) p.2
             [c, "Results", runStr n, "iteration1",
              "instance" ++ toString (instanceNum p.1)] p.1]
        else []) := by
    rw [processRunDir]
    simp only [hni, List.isEmpty_nil, if_true]
    cases hcb : rd.child "BenchmarkLog" with
    | none => simp [resultsNoIterOps, c4Items, c4SrcBase, hcb]
    | some b =>
      have hbd := hb b hcb
      simp [resultsNoIterOps, c4Items, c4SrcBase, hcb, childD, hbd]
  refine ⟨heq, ?_, ?_⟩
  · intro op hop q hq
    rw [heq] at hop
    obtain ⟨p, _, hopin⟩ := List.mem_flatMap.mp hop
    by_cases hf : p.2.isFile = true
    · rw [if_pos hf] at hopin
      rcases List.mem_cons.mp hopin with h | h
      · subst h
        simp only [Op.dstPaths, List.mem_singleton] at hq
        subst hq
        rfl
      · rcases List.mem_singleton.mp (by simpa using h) with h
        subst h
        simp only [Op.dstPaths, List.mem_singleton] at hq
        subst hq
        rfl
    · rw [if_neg hf] at hopin
      simp at hopin
  · intro op hop hw
    rw [heq] at hop
    obtain ⟨p, hp, hopin⟩ := List.mem_flatMap.mp hop
    by_cases hf : p.2.isFile = true
    · rw [if_pos hf] at hopin
      rcases List.mem_cons.mp hopin with h | h
      · subst h
        simp [Op.isWrite] at hw
      · rcases List.mem_singleton.mp (by simpa using h) with h
        exact ⟨p, hp, hf, h⟩
    · rw [if_neg hf] at hopin
      simp at hopin

/-- Witness run directory for C4: a BenchmarkLog subdirectory whose
contents are one classified log file, one unclassified file and one
subdirectory, next to a top-level file of the run directory that must be
ignored. -/
def c4rd : FS := .dir
  [("BenchmarkLog", .dir
     [("log-run3-a.txt", .file "x"),
      ("notes.txt", .file "y"),
      ("sub", .dir [("inner.txt", .file "z")])]),
   ("own.txt", .file "w")]

theorem C4_noiterations_state_witness :
    processRunDir "SUT1" "vm1" 2 "r1" c4rd =
      [Op.mkdir ["SUT1", "Results", "run2", "iteration1", "instance3"],
       Op.copyFile ["vm1", "r1", "BenchmarkLog", "log-run3-a.txt"] (.file "x")
         ["SUT1", "Results", "run2", "iteration1", "instance3"] "log-run3-a.txt",
       Op.mkdir ["SUT1", "Results", "run2", "iteration1", "instance1"],
       Op.copyFile ["vm1", "r1", "BenchmarkLog", "notes.txt"] (.file "y")
         ["SUT1", "Results", "run2", "iteration1", "instance1"] "notes.txt"] := by
  rw [(C4_noiterations_state "SUT1" "vm1" "r1" 2 c4rd rfl
    (by intro e he; cases he; rfl)).1]
  rfl

/-- C6: in multi-system mode, for a SUT whose WorkloadProfiler folder
search matched folder w (all of whose json-named entries are regular
files, as the claim presumes): sorting the .json files lexicographically,
the file at sort position i+1 is copied into run{i+1}, into iteration1
when the folder has no iteration subdirectory and into every iteration
subdirectory otherwise (full replication); and conversely every copy
produced by the mapper is of exactly this shape. -/
theorem C6_wp_multi_replication (c : String) (src : FS) (sut : String) (w : String)
    (hw : wpFolderName src sut = some w)
    (hfiles : ∀ p ∈ (childD src w).entriesD,
      pyEndsWith (pyLower p.1) ".json" = true → p.2.isFile = true) :
    (∀ i f,
      (sortStr (((childD src w).names).filter
        (fun f => pyEndsWith (pyLower f) ".json"))).get? i = some f →
      ((wpIterFolders (childD src w)).isEmpty = true →
        Op.copyFile [w, f] (childD (childD src w) f)
          [c, "WorkloadProfiler", runStr (i + 1), "iteration1"] f ∈ wpOps c src sut) ∧
      (∀ it ∈ wpIterFolders (childD src w),
        Op.copyFile [w, f] (childD (childD src w) f)
          [c, "WorkloadProfiler", runStr (i + 1), it] f ∈ wpOps c src sut)) ∧
    (∀ op ∈ wpOps c src sut, op.isWrite = true →
      ∃ i f it,
        (sortStr (((childD src w).names).filter
          (fun f => pyEndsWith (pyLower f) ".json"))).get? i = some f ∧
        (((wpIterFolders (childD src w)).isEmpty = true ∧ it = "iteration1") ∨
          it ∈ wpIterFolders (childD src w)) ∧
        op = Op.copyFile [w, f] (childD (childD src w) f)
          [c, "WorkloadProfiler", runStr (i + 1), it] f) := by
  have hwp : wpOps c src sut =
      ((sortStr (((childD src w).names).filter
        (fun f => pyEndsWith (pyLower f) ".json"))).enumFrom 1).flatMap (fun q =>
        if (wpIterFolders (childD src w)).isEmpty then
          [Op.mkdir [c, "WorkloadProfiler", runStr q.1, "iteration1"],
           Op.copyFile [w, q.2] (childD (childD src w) q.2)
             [c, "WorkloadProfiler", runStr q.1, "iteration1"] q.2]
        else
          (wpIterFolders (childD src w)).flatMap (fun iteration =>
            [Op.mkdir [c, "WorkloadProfiler", runStr q.1, iteration],
             Op.copyFile [w, q.2] (childD (childD src w) q.2)
               [c, "WorkloadProfiler", runStr q.1, iteration] q.2])) := by
    simp only [wpOps, hw]
  constructor
  · intro i f hget
    have hqmem : (1 + i, f) ∈
        (sortStr (((childD src w).names).filter
          (fun f => pyEndsWith (pyLower f) ".json"))).enumFrom 1 :=
      (mem_enumFrom_iff _ 1 (1 + i, f)).mpr ⟨i, hget, rfl⟩
    constructor
    · intro hempty
      rw [hwp]
      refine List.mem_flatMap.mpr ⟨(1 + i, f), hqmem, ?_⟩
      rw [Nat.add_comm 1 i] at hqmem ⊢
      simp [hempty]
    · intro it hit
      rw [hwp]
      refine List.mem_flatMap.mpr ⟨(1 + i, f), hqmem, ?_⟩
      have hne : (wpIterFolders (childD src w)).isEmpty = false := by
        rcases h : (wpIterFolders (childD src w)).isEmpty with _ | _
        · rfl
        · rw [List.isEmpty_iff] at h
          rw [h] at hit
          cases hit
      rw [Nat.add_comm 1 i]
      simp only [hne, Bool.false_eq_true, if_false]
      refine List.mem_flatMap.mpr ⟨it, hit, ?_⟩
      simp
  · intro op hop hwr
    rw [hwp] at hop
    obtain ⟨q, hq, hopin⟩ := List.mem_flatMap.mp hop
    obtain ⟨j, hj, hq1⟩ := (mem_enumFrom_iff _ 1 q).mp hq
    have hq1j : q.1 = j + 1 := by omega
    by_cases he : (wpIterFolders (childD src w)).isEmpty = true
    · rw [if_pos he] at hopin
      rcases List.mem_cons.mp hopin with h | h
      · subst h
        simp [Op.isWrite] at hwr
      · rcases List.mem_singleton.mp (by simpa using h) with h
        exact ⟨j, q.2, "iteration1", hj, Or.inl ⟨he, rfl⟩, by rw [h, hq1j]⟩
    · rw [if_neg he] at hopin
      obtain ⟨it, hit, hopin2⟩ := List.mem_flatMap.mp hopin
      rcases List.mem_cons.mp hopin2 with h | h
      · subst h
        simp [Op.isWrite] at hwr
      · rcases List.mem_singleton.mp (by simpa using h) with h
        exact ⟨j, q.2, it, hj, Or.inr hit, by rw [h, hq1j]⟩

/-- Concrete multi-system source for the C6 witness: the matched wp folder
holds two json files (listed out of order) and two iteration
subdirectories. -/
def c6src : FS := .dir
  [("VM3", .dir []),
   ("wp-vm3", .dir
     [("run_b.json", .file "b"),
      ("run_a.json", .file "a"),
      ("iterationX", .dir []),
      ("Iteration2", .dir [])])]

theorem C6_wp_multi_replication_witness :
    Op.copyFile ["wp-vm3", "run_a.json"] (FS.file "a")
      ["SUT3", "WorkloadProfiler", "run1", "iterationX"] "run_a.json" ∈
      wpOps "SUT3" c6src "VM3" := by
  have h := (C6_wp_multi_replication "SUT3" c6src "VM3" "wp-vm3" rfl
    (by
      intro p hp
      rcases List.mem_cons.mp hp with h | hp
      · subst h; decide
      rcases List.mem_cons.mp hp with h | hp
      · subst h; decide
      rcases List.mem_cons.mp hp with h | hp
      · subst h; decide
      rcases List.mem_cons.mp hp with h | hp
      · subst h; decide
      cases hp)).1 0 "run_a.json" rfl
  exact h.2 "iterationX" (by decide)

theorem insertSorted_length (x : String) (l : List String) :
    (insertSorted x l).length = l.length + 1 := by
  induction l with
  | nil => rfl
  | cons y r ih =>
    rw [insertSorted]
    by_cases h : strLe x y
    · simp [h]
    · simp [h, ih]

theorem sortStr_length (l : List String) : (sortStr l).length = l.length := by
  induction l with
  | nil => rfl
  | cons x r ih =>
    show (insertSorted x (sortStr r)).length = r.length + 1
    rw [insertSorted_length, ih]

theorem findFirstArtifact_eq_find (wp : FS) (l : List String) :
    findFirstArtifact wp l =
      (l.filterMap (fun nm => (wp.child nm).map (fun e => (nm, e)))).find?
        (fun q => q.2.isFile && isWpArtifactName q.1) := by
  induction l with
  | nil => rfl
  | cons nm rest ih =>
    rw [findFirstArtifact]
    cases hc : wp.child nm with
    | none => simp [List.filterMap_cons, hc, ih]
    | some e =>
      by_cases hf : (e.isFile && isWpArtifactName nm) = true
      · simp [List.filterMap_cons, hc, hf, List.find?]
      · simp only [List.filterMap_cons, hc, Option.map_some']
        rw [if_neg (by simp [hf]), List.find?_cons_of_neg _ (by simpa using hf), ih]

theorem flatMap_range_split {β : Type} (f : Nat → List β) (N k : Nat) (hk : k < N) :
    ∃ pre suf, (List.range N).flatMap f = pre ++ f k ++ suf := by
  obtain ⟨m, hm⟩ : ∃ m, N - k = m + 1 := ⟨N - k - 1, by omega⟩
  have h1 : List.range N = List.range k ++ (List.range (N - k)).map (k + ·) := by
    rw [← List.range_add]
    congr 1
    omega
  rw [h1, hm, List.range_succ_eq_map]
  refine ⟨(List.range k).flatMap f,
    (((List.range m).map Nat.succ).map (fun x => k + x)).flatMap f, ?_⟩
  rw [List.flatMap_append, List.map_cons, List.flatMap_cons, ← List.append_assoc]
  rfl

/-- C7: single-system shared-artifact policy.  Part one: the selected
WorkloadProfiler artifact is exactly the first entry, in sorted order,
that is a regular file whose lowercased name ends in .json or .tar.gz.
Parts two and three: the run count is 1 when Logs is absent, and the
number of top-level Logs subdirectories with a minimum of 1 otherwise (a
Logs entry that is a regular file would make os.listdir raise in the
script, hence the directory hypothesis).  Part four: for every run slot
k+1 up to the run count, the trace contains the slot creation followed by
exactly the copies of the artifact content, the same content for every
slot (`artifactCopyList` does not depend on the slot). -/
theorem C7_shared_artifact_policy (src : FS) :
    (∀ wp, src.child "WorkloadProfiler" = some wp →
      case2Artifact src =
        ((sortStr wp.names).filterMap (fun nm => (wp.child nm).map (fun e => (nm, e)))).find?
          (fun q => q.2.isFile && isWpArtifactName q.1)) ∧
    (src.child "Logs" = none → case2NumRuns src = 1) ∧
    (∀ logs, src.child "Logs" = some logs → logs.isDir = true →
      case2NumRuns src = max 1 (((logs.names).filter (fun d => (childD logs d).isDir)).length)) ∧
    (∀ nm e k, case2Artifact src = some (nm, e) → k < case2NumRuns src →
      ∃ pre suf, case2WpRepOps src =
        pre ++ (Op.mkdir ["SUT1", "WorkloadProfiler", runStr (k + 1), "iteration1"] ::
          (artifactCopyList nm e).map (fun p =>
            Op.copyFile ["WorkloadProfiler", nm] p.2
              ["SUT1", "WorkloadProfiler", runStr (k + 1), "iteration1"] p.1)) ++ suf) := by
  refine ⟨?_, ?_, ?_, ?_⟩
  · intro wp hwp
    simp only [case2Artifact, hwp]
    rw [findFirstArtifact_eq_find]
  · intro hlogs
    simp only [case2NumRuns, case2LogSubfolders, hlogs]
    rfl
  · intro logs hlogs _
    simp only [case2NumRuns, case2LogSubfolders, hlogs]
    rcases hfe : (logs.names).filter (fun d => (childD logs d).isDir) with _ | ⟨a, r⟩
    · decide
    · have hlen : (sortStr (a :: r)).length = r.length + 1 := by
        rw [sortStr_length]
        rfl
      have hne : (sortStr (a :: r)).isEmpty = false := by
        rcases hs : sortStr (a :: r) with _ | _
        · rw [hs] at hlen
          simp at hlen
        · rfl
      simp [hne, hlen]
  · intro nm e k ha hk
    simp only [case2WpRepOps, ha]
    obtain ⟨pre, suf, hsplit⟩ := flatMap_range_split
      (fun k =>
        Op.mkdir ["SUT1", "WorkloadProfiler", runStr (k + 1), "iteration1"] ::
        (artifactCopyList nm e).map (fun p =>
          Op.copyFile ["WorkloadProfiler", nm] p.2
            ["SUT1", "WorkloadProfiler", runStr (k + 1), "iteration1"] p.1))
      (case2NumRuns src) k hk
    exact ⟨pre, suf, hsplit⟩

/-- Concrete single-system source for the C7 witness: Logs with three run
subfolders and one WorkloadProfiler json capture. -/
def c7src : FS := .dir
  [("Logs", .dir [("a", .dir []), ("b", .dir []), ("c", .dir [])]),
   ("WorkloadProfiler", .dir [("capture.json", .file "W")])]

theorem C7_shared_artifact_policy_witness :
    case2NumRuns c7src = 3 ∧
    case2Artifact c7src = some ("capture.json", FS.file "W") ∧
    (∃ pre suf, case2WpRepOps c7src =
      pre ++ [Op.mkdir ["SUT1", "WorkloadProfiler", "run2", "iteration1"],
        Op.copyFile ["WorkloadProfiler", "capture.json"] (FS.file "W")
          ["SUT1", "WorkloadProfiler", "run2", "iteration1"] "capture.json"] ++ suf) := by
  refine ⟨?_, ?_, ?_⟩
  · rw [(C7_shared_artifact_policy c7src).2.2.1 (FS.dir [("a", .dir []), ("b", .dir []), ("c", .dir [])]) rfl rfl]
    decide
  · rw [(C7_shared_artifact_policy c7src).1 (FS.dir [("capture.json", .file "W")]) rfl]
    rfl
  · obtain ⟨pre, suf, h⟩ := (C7_shared_artifact_policy c7src).2.2.2 "capture.json" (FS.file "W") 1 rfl (by decide)
    exact ⟨pre, suf, by rw [h]; rfl⟩

/-- C8: RootFileReplicator.  Multi-system mode: an operation is produced
iff it copies a top-level regular file, unmodified, into the root of the
canonical directory of a discovered SUT — every root file is broadcast to
every SUT and nothing else happens (in particular no source file is
removed; the trace has no deletion operation at all).  Single-system mode
(restructure.py): an operation is produced iff it copies a root file
case-insensitively named epyc_manual_result.json to the SUT root, or, for
any other root file ending in .json or .txt, creates
Results/run1/iteration1/instance1 and copies the file there — the run1
destination is unconditional, whatever run count was detected
elsewhere. -/
theorem C8_root_file_replication :
    (∀ (src : FS) (op : Op), op ∈ rootOpsMulti src ↔
      ∃ nm e sut, (nm, e) ∈ src.entriesD ∧ e.isFile = true ∧ sut ∈ sutsOf src ∧
        op = Op.copyFile [nm] e [sutName sut] nm) ∧
    (∀ (src : FS) (op : Op), op ∈ rootOpsSingle src ↔
      ∃ nm e, (nm, e) ∈ src.entriesD ∧ e.isFile = true ∧
        ((pyLower nm = "epyc_manual_result.json" ∧ op = Op.copyFile [nm] e ["SUT1"] nm) ∨
         (pyLower nm ≠ "epyc_manual_result.json" ∧
          (pyEndsWith (pyLower nm) ".json" || pyEndsWith (pyLower nm) ".txt") = true ∧
          (op = Op.mkdir ["SUT1", "Results", "run1", "iteration1", "instance1"] ∨
           op = Op.copyFile [nm] e ["SUT1", "Results", "run1", "iteration1", "instance1"] nm)))) := by
  constructor
  · intro src op
    rw [rootOpsMulti]
    constructor
    · intro hop
      obtain ⟨p, hp, hopin⟩ := List.mem_flatMap.mp hop
      by_cases hf : p.2.isFile = true
      · rw [if_pos hf] at hopin
        obtain ⟨sut, hsut, hope⟩ := List.mem_map.mp hopin
        exact ⟨p.1, p.2, sut, by simpa using hp, hf, hsut, hope.symm⟩
      · rw [if_neg hf] at hopin
        cases hopin
    · rintro ⟨nm, e, sut, hmem, hfile, hsut, rfl⟩
      refine List.mem_flatMap.mpr ⟨(nm, e), hmem, ?_⟩
      rw [if_pos hfile]
      exact List.mem_map.mpr ⟨sut, hsut, rfl⟩
  · intro src op
    rw [rootOpsSingle]
    constructor
    · intro hop
      obtain ⟨p, hp, hopin⟩ := List.mem_flatMap.mp hop
      by_cases hf : p.2.isFile = true
      · rw [if_neg (by simp [hf])] at hopin
        by_cases hm : pyLower p.1 = "epyc_manual_result.json"
        · rw [if_pos (by simp [hm])] at hopin
          rcases List.mem_singleton.mp hopin with h
          exact ⟨p.1, p.2, by simpa using hp, hf, Or.inl ⟨hm, h⟩⟩
        · rw [if_neg (by simp [hm])] at hopin
          by_cases hj : (pyEndsWith (pyLower p.1) ".json" || pyEndsWith (pyLower p.1) ".txt") = true
          · rw [if_pos hj] at hopin
            rcases List.mem_cons.mp hopin with h | h
            · exact ⟨p.1, p.2, by simpa using hp, hf, Or.inr ⟨hm, hj, Or.inl h⟩⟩
            · rcases List.mem_singleton.mp h with h
              exact ⟨p.1, p.2, by simpa using hp, hf, Or.inr ⟨hm, hj, Or.inr h⟩⟩
          · rw [if_neg hj] at hopin
            cases hopin
      · rw [if_pos (by simp [hf])] at hopin
        cases hopin
    · rintro ⟨nm, e, hmem, hfile, hcase⟩
      refine List.mem_flatMap.mpr ⟨(nm, e), hmem, ?_⟩
      rcases hcase with ⟨hm, rfl⟩ | ⟨hm, hj, hop⟩
      · rw [if_neg (by simp [hfile]), if_pos (by simp [hm])]
        exact List.mem_singleton.mpr rfl
      · rw [if_neg (by simp [hfile]), if_neg (by simp [hm]), if_pos hj]
        rcases hop with rfl | rfl
        · exact List.mem_cons_self _ _
        · exact List.mem_cons.mpr (Or.inr (List.mem_singleton.mpr rfl))

/-- Whether some destination path materialized by an operation lies under
Results/run{k} of the canonical SUT c. -/
def opUnderRun (c : String) (k : Nat) (op : Op) : Prop :=
  ∃ q ∈ op.dstPaths, [c, "Results", runStr k].isPrefixOf q = true

instance (c : String) (k : Nat) (op : Op) : Decidable (opUnderRun c k op) := by
  unfold opUnderRun
  infer_instance

/-- Formalization of the C3 claim for the Results category of one SUT:
the run indices materialized in the output form exactly a dense 1-based
range. -/
def c3DenseClaim (src : FS) (c : String) : Prop :=
  ∃ N, ∀ k, 1 ≤ k → ((∃ op ∈ case1Trace src, opUnderRun c k op) ↔ k ≤ N)

/-- Counterexample source for C3: the raw SUT folder vm1 holds an empty
run directory ra (sorted first) and a run directory rb with one file. -/
def c3src : FS := .dir
  [("vm1", .dir [("ra", .dir []), ("rb", .dir [("f.txt", .file "x")])])]

/-- C3 counterexample: on c3src the empty run directory ra consumes run
index 1 but materializes nothing, so the output holds Results/run2 and no
Results/run1 — the set of produced indices is not a dense range starting
at 1, refuting the claim as stated. -/
theorem C3_run_indices_counterexample : ¬ c3DenseClaim c3src "SUT1" := by
  rintro ⟨N, hN⟩
  have hN2 : 2 ≤ N := (hN 2 (by omega)).mp (by decide)
  have h1 := (hN 1 (by omega)).mpr (by omega)
  exact absurd h1 (by decide)

theorem wpOps_copy_mem (c : String) (src : FS) (sut : String) (w : String)
    (hw : wpFolderName src sut = some w) (i : Nat) (f : String)
    (hget : (sortStr (((childD src w).names).filter
      (fun f => pyEndsWith (pyLower f) ".json"))).get? i = some f) :
    ((wpIterFolders (childD src w)).isEmpty = true →
      Op.copyFile [w, f] (childD (childD src w) f)
        [c, "WorkloadProfiler", runStr (i + 1), "iteration1"] f ∈ wpOps c src sut) ∧
    (∀ it ∈ wpIterFolders (childD src w),
      Op.copyFile [w, f] (childD (childD src w) f)
        [c, "WorkloadProfiler", runStr (i + 1), it] f ∈ wpOps c src sut) := by
  have hwp : wpOps c src sut =
      ((sortStr (((childD src w).names).filter
        (fun f => pyEndsWith (pyLower f) ".json"))).enumFrom 1).flatMap (fun q =>
        if (wpIterFolders (childD src w)).isEmpty then
          [Op.mkdir [c, "WorkloadProfiler", runStr q.1, "iteration1"],
           Op.copyFile [w, q.2] (childD (childD src w) q.2)
             [c, "WorkloadProfiler", runStr q.1, "iteration1"] q.2]
        else
          (wpIterFolders (childD src w)).flatMap (fun iteration =>
            [Op.mkdir [c, "WorkloadProfiler", runStr q.1, iteration],
             Op.copyFile [w, q.2] (childD (childD src w) q.2)
               [c, "WorkloadProfiler", runStr q.1, iteration] q.2])) := by
    simp only [wpOps, hw]
  have hqmem : (1 + i, f) ∈
      (sortStr (((childD src w).names).filter
        (fun f => pyEndsWith (pyLower f) ".json"))).enumFrom 1 :=
    (mem_enumFrom_iff _ 1 (1 + i, f)).mpr ⟨i, hget, rfl⟩
  constructor
  · intro hempty
    rw [hwp]
    refine List.mem_flatMap.mpr ⟨(1 + i, f), hqmem, ?_⟩
    rw [Nat.add_comm 1 i]
    simp [hempty]
  · intro it hit
    rw [hwp]
    refine List.mem_flatMap.mpr ⟨(1 + i, f), hqmem, ?_⟩
    have hne : (wpIterFolders (childD src w)).isEmpty = false := by
      rcases h : (wpIterFolders (childD src w)).isEmpty with _ | _
      · rfl
      · rw [List.isEmpty_iff] at h
        rw [h] at hit
        cases hit
    rw [Nat.add_comm 1 i]
    simp only [hne, Bool.false_eq_true, if_false]
    refine List.mem_flatMap.mpr ⟨it, hit, ?_⟩
    simp

/-- C3 amended: run indices are assigned densely, 1-based and in sorted
order of the matching raw entries in every category — the
ResultsReconciler loop processes the directory entries of the sorted raw
listing with consecutive indices starting at the initial index, skipping
non-directories without consuming an index (first conjunct, an exact
characterization of the loop); the PlatformProfiler mapper creates
run{i+1} for the sorted subfolder at position i (second conjunct); and
the WorkloadProfiler mapper copies the sorted json file at position i
under run{i+1} (third conjunct).  However, as the counterexample shows, a
processed Results run directory that yields no file materializes no
run{n} output directory, so the set of indices appearing in the output
can have gaps. -/
theorem C3_dense_run_assignment :
    (∀ (c sutRaw : String) (vm : FS) (l : List String) (n : Nat),
      resultsGo c sutRaw vm l n =
        ((l.filterMap (fun nm => match vm.child nm with
          | some e => if e.isDir then some (nm, e) else none
          | none => none)).enumFrom n).flatMap
          (fun q => processRunDir c sutRaw q.1 q.2.1 q.2.2)) ∧
    (∀ (c : String) (src : FS) (folderName : String) (f : FS) (i : Nat) (sub : String),
      src.child folderName = some f →
      (sortStr ((f.names).filter (fun nm => (childD f nm).isDir))).get? i = some sub →
      Op.mkdir [c, "PlatformProfiler", runStr (i + 1)] ∈ ppCandidateOps c src folderName) ∧
    (∀ (c : String) (src : FS) (sut : String) (w : String) (i : Nat) (f : String),
      wpFolderName src sut = some w →
      (sortStr (((childD src w).names).filter
        (fun g => pyEndsWith (pyLower g) ".json"))).get? i = some f →
      ((wpIterFolders (childD src w)).isEmpty = true →
        Op.copyFile [w, f] (childD (childD src w) f)
          [c, "WorkloadProfiler", runStr (i + 1), "iteration1"] f ∈ wpOps c src sut) ∧
      (∀ it ∈ wpIterFolders (childD src w),
        Op.copyFile [w, f] (childD (childD src w) f)
          [c, "WorkloadProfiler", runStr (i + 1), it] f ∈ wpOps c src sut)) := by
  refine ⟨?_, ?_, ?_⟩
  · intro c sutRaw vm l
    induction l with
    | nil => intro n; rfl
    | cons nm rest ih =>
      intro n
      cases hc : vm.child nm with
      | none => simp [resultsGo, List.filterMap_cons, hc, ih]
      | some e =>
        by_cases hd : e.isDir = true
        · simp [resultsGo, List.filterMap_cons, hc, hd, List.enumFrom, ih]
        · simp [resultsGo, List.filterMap_cons, hc, hd, ih]
  · intro c src folderName f i sub hf hget
    rw [ppCandidateOps]
    simp only [hf]
    have hne : ((f.names).filter (fun nm => (childD f nm).isDir)).isEmpty = false := by
      rcases h : (f.names).filter (fun nm => (childD f nm).isDir) with _ | _
      · rw [h] at hget
        rw [show sortStr ([] : List String) = [] from rfl] at hget
        simp at hget
      · rfl
    rw [if_neg (by simp [hne]), if_pos (by simp [hne])]
    have hqmem : (1 + i, sub) ∈
        (sortStr ((f.names).filter (fun nm => (childD f nm).isDir))).enumFrom 1 :=
      (mem_enumFrom_iff _ 1 (1 + i, sub)).mpr ⟨i, hget, rfl⟩
    refine List.mem_flatMap.mpr ⟨(1 + i, sub), hqmem, ?_⟩
    rw [Nat.add_comm 1 i]
    simp [ppRunOps]
  · intro c src sut w i f hw hget
    exact wpOps_copy_mem c src sut w hw i f hget

/-- PlatformProfile source for the C3 witness, with subfolders listed out
of sorted order. -/
def c3ppsrc : FS := .dir
  [("PlatformProfile", .dir [("pp2", .dir []), ("pp1", .dir [("f", .file "x")])])]

theorem C3_dense_run_assignment_witness :
    resultsGo "SUT1" "vm1" (childD c3src "vm1") ["ra", "rb"] 1 =
      processRunDir "SUT1" "vm1" 1 "ra" (.dir []) ++
      processRunDir "SUT1" "vm1" 2 "rb" (.dir [("f.txt", .file "x")]) ∧
    Op.mkdir ["SUT9", "PlatformProfiler", "run1"] ∈
      ppCandidateOps "SUT9" c3ppsrc "PlatformProfile" := by
  constructor
  · rw [C3_dense_run_assignment.1 "SUT1" "vm1" (childD c3src "vm1") ["ra", "rb"] 1]
    rfl
  · exact C3_dense_run_assignment.2.1 "SUT9" c3ppsrc "PlatformProfile"
      (.dir [("pp2", .dir []), ("pp1", .dir [("f", .file "x")])]) 0 "pp1" rfl rfl

/-- The canonical directories of one SUT, created eagerly by the engine. -/
def canonicalDirs (c : String) : List (List String) :=
  [[c], [c, "PlatformProfiler"], [c, "WorkloadProfiler"], [c, "Results"]]

theorem ppRunOps_head (c folderName : String) (f : FS) (idx : Nat) (sub : String) :
    ∀ op ∈ ppRunOps c folderName f idx sub, op.dstHead = some c := by
  intro op hop
  rw [ppRunOps] at hop
  rcases List.mem_cons.mp hop with rfl | hop
  · rfl
  · obtain ⟨p, _, hopin⟩ := List.mem_flatMap.mp hop
    by_cases hf : p.2.isFile = true
    · rw [if_pos hf] at hopin
      rcases List.mem_singleton.mp hopin with rfl
      rfl
    · rw [if_neg hf] at hopin
      cases hopin

theorem ppCandidateOps_head (c : String) (src : FS) (folderName : String) :
    ∀ op ∈ ppCandidateOps c src folderName, op.dstHead = some c := by
  intro op hop
  rw [ppCandidateOps] at hop
  cases hc : src.child folderName with
  | none => rw [hc] at hop; cases hop
  | some f =>
    rw [hc] at hop
    simp only at hop
    split at hop
    · obtain ⟨nm, _, hope⟩ := List.mem_map.mp hop
      rw [← hope]
      rfl
    · split at hop
      · obtain ⟨q, _, hopin⟩ := List.mem_flatMap.mp hop
        exact ppRunOps_head c folderName f q.1 q.2 op hopin
      · cases hop

theorem ppOps_head (c : String) (src : FS) :
    ∀ op ∈ ppOps c src, op.dstHead = some c := by
  intro op hop
  rcases List.mem_append.mp hop with h | h
  · exact ppCandidateOps_head c src "PlatformProfile" op h
  · exact ppCandidateOps_head c src "Host-pp" op h

theorem wpOps_head (c : String) (src : FS) (sut : String) :
    ∀ op ∈ wpOps c src sut, op.dstHead = some c := by
  intro op hop
  rw [wpOps] at hop
  cases hw : wpFolderName src sut with
  | none => rw [hw] at hop; cases hop
  | some w =>
    rw [hw] at hop
    simp only at hop
    obtain ⟨q, _, hopin⟩ := List.mem_flatMap.mp hop
    split at hopin
    · rcases List.mem_cons.mp hopin with rfl | h
      · rfl
      · rcases List.mem_singleton.mp h with rfl
        rfl
    · obtain ⟨it, _, hopin2⟩ := List.mem_flatMap.mp hopin
      rcases List.mem_cons.mp hopin2 with rfl | h
      · rfl
      · rcases List.mem_singleton.mp h with rfl
        rfl

theorem resultsInstanceOps_head (c sutRaw runDirName : String) (n : Nat)
    (iteration : String) (itFS : FS) (instName : String) :
    ∀ op ∈ resultsInstanceOps c sutRaw runDirName n iteration itFS instName,
      op.dstHead = some c := by
  intro op hop
  rw [resultsInstanceOps] at hop
  rcases List.mem_cons.mp hop with rfl | hop
  · rfl
  · obtain ⟨p, _, hopin⟩ := List.mem_flatMap.mp hop
    split at hopin
    · rcases List.mem_singleton.mp hopin with rfl
      rfl
    · rcases List.mem_singleton.mp hopin with rfl
      rfl

theorem resultsIterLooseOps_head (c sutRaw runDirName : String) (n : Nat)
    (iteration : String) (itFS : FS) :
    ∀ op ∈ resultsIterLooseOps c sutRaw runDirName n iteration itFS,
      op.dstHead = some c := by
  intro op hop
  rw [resultsIterLooseOps] at hop
  obtain ⟨p, _, hopin⟩ := List.mem_flatMap.mp hop
  split at hopin
  · rcases List.mem_cons.mp hopin with rfl | h
    · rfl
    · rcases List.mem_singleton.mp h with rfl
      rfl
  · rcases List.mem_cons.mp hopin with rfl | h
    · rfl
    · rcases List.mem_singleton.mp h with rfl
      rfl

theorem resultsNoIterOps_head (c sutRaw runDirName : String) (n : Nat) (rd : FS) :
    ∀ op ∈ resultsNoIterOps c sutRaw runDirName n rd, op.dstHead = some c := by
  intro op hop
  rw [resultsNoIterOps] at hop
  obtain ⟨p, _, hopin⟩ := List.mem_flatMap.mp hop
  split at hopin
  · rcases List.mem_cons.mp hopin with rfl | h
    · rfl
    · rcases List.mem_singleton.mp h with rfl
      rfl
  · cases hopin

theorem processRunDir_head (c sutRaw : String) (n : Nat) (runDirName : String) (rd : FS) :
    ∀ op ∈ processRunDir c sutRaw n runDirName rd, op.dstHead = some c := by
  intro op hop
  rw [processRunDir] at hop
  split at hop
  · exact resultsNoIterOps_head c sutRaw runDirName n rd op hop
  · obtain ⟨q, _, hopin⟩ := List.mem_flatMap.mp hop
    split at hopin
    · exact resultsIterLooseOps_head c sutRaw runDirName n q.1 q.2 op hopin
    · obtain ⟨ip, _, hopin2⟩ := List.mem_flatMap.mp hopin
      exact resultsInstanceOps_head c sutRaw runDirName n q.1 q.2 ip.1 op hopin2

theorem resultsGo_head (c sutRaw : String) (vm : FS) (l : List String) (n : Nat) :
    ∀ op ∈ resultsGo c sutRaw vm l n, op.dstHead = some c := by
  induction l generalizing n with
  | nil => intro op hop; cases hop
  | cons nm rest ih =>
    intro op hop
    rw [resultsGo] at hop
    split at hop
    · split at hop
      · rcases List.mem_append.mp hop with h | h
        · exact processRunDir_head c sutRaw n nm _ op h
        · exact ih (n + 1) op h
      · exact ih n op hop
    · exact ih n op hop

theorem sutBlock_head (src : FS) (sut : String) :
    ∀ op ∈ sutBlock src sut, op.dstHead = some (sutName sut) := by
  intro op hop
  rw [sutBlock] at hop
  rcases List.mem_append.mp hop with h | h
  · rcases List.mem_append.mp h with h | h
    · rcases List.mem_append.mp h with h | h
      · rcases List.mem_cons.mp h with rfl | h
        · rfl
        rcases List.mem_cons.mp h with rfl | h
        · rfl
        rcases List.mem_cons.mp h with rfl | h
        · rfl
        rcases List.mem_singleton.mp h with rfl
        rfl
      · exact ppOps_head (sutName sut) src op h
    · exact wpOps_head (sutName sut) src sut op h
  · exact resultsGo_head (sutName sut) sut (childD src sut) _ 1 op h

theorem rootOpsMulti_head (src : FS) :
    ∀ op ∈ rootOpsMulti src, ∃ sut ∈ sutsOf src, op.dstHead = some (sutName sut) := by
  intro op hop
  rw [rootOpsMulti] at hop
  obtain ⟨p, _, hopin⟩ := List.mem_flatMap.mp hop
  split at hopin
  · obtain ⟨sut, hsut, hope⟩ := List.mem_map.mp hopin
    exact ⟨sut, hsut, by rw [← hope]; rfl⟩
  · cases hopin

theorem sutBlock_structure (src : FS) (sut : String) :
    sutBlock src sut = (canonicalDirs (sutName sut)).map Op.mkdir ++
      (ppOps (sutName sut) src ++ wpOps (sutName sut) src sut ++
       resultsOps (sutName sut) sut (childD src sut)) := by
  rw [sutBlock, canonicalDirs]
  simp [resultsOps, List.append_assoc]

theorem mkdir_not_write (p : List String) : (Op.mkdir p).isWrite = false := rfl

theorem mkdir_mem_sutBlock (src : FS) (sut : String) (d : List String)
    (hd : d ∈ canonicalDirs (sutName sut)) : Op.mkdir d ∈ sutBlock src sut := by
  rw [sutBlock_structure]
  exact List.mem_append_left _ (List.mem_map.mpr ⟨d, hd, rfl⟩)

theorem mem_map_mkdir_not_write (c : String) (op : Op)
    (h : op ∈ (canonicalDirs c).map Op.mkdir) : op.isWrite = false := by
  obtain ⟨d, _, hope⟩ := List.mem_map.mp h
  rw [← hope]
  rfl

theorem blocks_before_write (src : FS) (suts : List String) :
    ∀ (pre suf : List Op) (op : Op) (c : String),
      suts.flatMap (sutBlock src) = pre ++ op :: suf → op.isWrite = true →
      op.dstHead = some c → ∀ d ∈ canonicalDirs c, Op.mkdir d ∈ pre := by
  induction suts with
  | nil =>
    intro pre suf op c h
    rw [List.flatMap_nil] at h
    rcases pre with _ | _
    · cases h
    · cases h
  | cons s ss ih =>
    intro pre suf op c hsplit hw hh d hd
    rw [List.flatMap_cons] at hsplit
    rcases List.append_eq_append_iff.mp hsplit with ⟨a2, hpre, hrest⟩ | ⟨c2, hblock, hrest⟩
    · have hmem := ih a2 suf op c hrest hw hh d hd
      rw [hpre]
      exact List.mem_append_right _ hmem
    · rcases c2 with _ | ⟨o2, c3⟩
      · rw [List.nil_append] at hrest
        have hmem := ih [] suf op c hrest.symm hw hh d hd
        cases hmem
      · rw [List.cons_append] at hrest
        have ho2 : op = o2 := by
          injection hrest
        subst ho2
        rw [sutBlock_structure] at hblock
        have hcs : ∀ hopB : op ∈ sutBlock src s, c = sutName s := by
          intro hopB
          have h2 := sutBlock_head src s op hopB
          rw [hh] at h2
          exact Option.some_inj.mp h2
        rcases List.append_eq_append_iff.mp hblock with ⟨a3, hpre3, hT⟩ | ⟨m3, hM, hT⟩
        · have hopT : op ∈ ppOps (sutName s) src ++ wpOps (sutName s) src s ++
              resultsOps (sutName s) s (childD src s) := by
            rw [hT]
            exact List.mem_append_right _ (List.mem_cons_self _ _)
          have hopB : op ∈ sutBlock src s := by
            rw [sutBlock_structure]
            exact List.mem_append_right _ hopT
          rw [hpre3]
          exact List.mem_append_left _
            (List.mem_map.mpr ⟨d, (hcs hopB) ▸ hd, rfl⟩)
        · rcases m3 with _ | ⟨o3, m4⟩
          · rw [List.append_nil] at hM
            rw [List.nil_append] at hT
            have hopT : op ∈ ppOps (sutName s) src ++ wpOps (sutName s) src s ++
                resultsOps (sutName s) s (childD src s) := by
              rw [← hT]
              exact List.mem_cons_self _ _
            have hopB : op ∈ sutBlock src s := by
              rw [sutBlock_structure]
              exact List.mem_append_right _ hopT
            rw [← hM]
            exact List.mem_map.mpr ⟨d, (hcs hopB) ▸ hd, rfl⟩
          · exfalso
            have hmem : op ∈ (canonicalDirs (sutName s)).map Op.mkdir := by
              rw [hM]
              have h1 : o3 = op := by
                injection hT with ha hb
                exact ha.symm
              rw [h1]
              exact List.mem_append_right _ (List.mem_cons_self _ _)
            rw [mem_map_mkdir_not_write (sutName s) op hmem] at hw
            cases hw

theorem case1_writes_after_mkdirs (src : FS) (pre suf : List Op) (op : Op) (c : String)
    (h : case1Trace src = pre ++ op :: suf) (hw : op.isWrite = true)
    (hh : op.dstHead = some c) : ∀ d ∈ canonicalDirs c, Op.mkdir d ∈ pre := by
  intro d hd
  rw [case1Trace] at h
  have fromRoot : ∀ hopR : op ∈ rootOpsMulti src,
      (sutsOf src).flatMap (sutBlock src) ⊆ pre → Op.mkdir d ∈ pre := by
    intro hopR hsub
    obtain ⟨sut, hsut, hhead⟩ := rootOpsMulti_head src op hopR
    have hcs : c = sutName sut := by
      rw [hh] at hhead
      exact Option.some_inj.mp hhead
    exact hsub (List.mem_flatMap.mpr ⟨sut, hsut, mkdir_mem_sutBlock src sut d (hcs ▸ hd)⟩)
  rcases List.append_eq_append_iff.mp h with ⟨a2, hpre, hroot⟩ | ⟨c2, hblocks, hroot⟩
  · refine fromRoot ?_ ?_
    · rw [hroot]
      exact List.mem_append_right _ (List.mem_cons_self _ _)
    · intro x hx
      rw [hpre]
      exact List.mem_append_left _ hx
  · rcases c2 with _ | ⟨o2, c3⟩
    · rw [List.append_nil] at hblocks
      rw [List.nil_append] at hroot
      refine fromRoot ?_ ?_
      · rw [← hroot]
        exact List.mem_cons_self _ _
      · intro x hx
        rw [← hblocks]
        exact hx
    · rw [List.cons_append] at hroot
      have ho2 : op = o2 := by
        injection hroot
      subst ho2
      exact blocks_before_write src (sutsOf src) pre c3 op c hblocks hw hh d hd

theorem lookupE_cons_pos (p : String × FS) (rest : List (String × FS)) (nm : String)
    (h : (p.1 == nm) = true) : lookupE (p :: rest) nm = some p.2 := by
  rw [lookupE, @List.find?_cons_of_pos _ (fun e => e.1 == nm) p rest h, Option.map_some']

theorem lookupE_cons_neg (p : String × FS) (rest : List (String × FS)) (nm : String)
    (h : (p.1 == nm) = false) : lookupE (p :: rest) nm = lookupE rest nm := by
  rw [lookupE, List.find?_cons_of_neg _ (by simp [h]), lookupE]

theorem replaceE_cons (p : String × FS) (rest : List (String × FS)) (nm : String) (v : FS) :
    replaceE (p :: rest) nm v = (if p.1 == nm then (nm, v) else p) :: replaceE rest nm v := rfl

theorem lookupE_replaceE_self (es : List (String × FS)) (nm : String) (v : FS)
    (h : (lookupE es nm).isSome = true) : lookupE (replaceE es nm v) nm = some v := by
  induction es with
  | nil => simp [lookupE] at h
  | cons p rest ih =>
    rw [replaceE_cons]
    by_cases hp : (p.1 == nm) = true
    · rw [if_pos hp]
      exact lookupE_cons_pos (nm, v) _ nm (by simp)
    · rw [if_neg hp, lookupE_cons_neg p _ nm (by simpa using hp)]
      refine ih ?_
      rw [lookupE_cons_neg p rest nm (by simpa using hp)] at h
      exact h

theorem lookupE_replaceE_other (es : List (String × FS)) (nm nm2 : String) (v : FS)
    (h : nm2 ≠ nm) : lookupE (replaceE es nm v) nm2 = lookupE es nm2 := by
  induction es with
  | nil => rfl
  | cons p rest ih =>
    rw [replaceE_cons]
    by_cases hp : (p.1 == nm) = true
    · have hp1 : p.1 = nm := by simpa using hp
      have hh : ((nm, v).1 == nm2) = false := by
        simp only [beq_eq_false_iff_ne, ne_eq]
        exact fun hc => h hc.symm
      rw [if_pos hp, lookupE_cons_neg _ _ _ hh,
        lookupE_cons_neg p rest nm2 (by rw [hp1]; exact hh), ih]
    · rw [if_neg hp]
      by_cases hq : (p.1 == nm2) = true
      · rw [lookupE_cons_pos p _ nm2 hq, lookupE_cons_pos p rest nm2 hq]
      · rw [lookupE_cons_neg p _ nm2 (by simpa using hq),
          lookupE_cons_neg p rest nm2 (by simpa using hq), ih]

theorem lookupE_append_left (es1 es2 : List (String × FS)) (nm : String) (c : FS)
    (h : lookupE es1 nm = some c) : lookupE (es1 ++ es2) nm = some c := by
  induction es1 with
  | nil => cases h
  | cons p rest ih =>
    rw [List.cons_append]
    by_cases hp : (p.1 == nm) = true
    · rw [lookupE_cons_pos p _ nm hp]
      rw [lookupE_cons_pos p rest nm hp] at h
      exact h
    · rw [lookupE_cons_neg p _ nm (by simpa using hp)]
      rw [lookupE_cons_neg p rest nm (by simpa using hp)] at h
      exact ih h

theorem lookupE_append_right (es1 es2 : List (String × FS)) (nm : String)
    (h : lookupE es1 nm = none) : lookupE (es1 ++ es2) nm = lookupE es2 nm := by
  induction es1 with
  | nil => rfl
  | cons p rest ih =>
    rw [List.cons_append]
    by_cases hp : (p.1 == nm) = true
    · rw [lookupE_cons_pos p rest nm hp] at h
      cases h
    · rw [lookupE_cons_neg p _ nm (by simpa using hp)]
      rw [lookupE_cons_neg p rest nm (by simpa using hp)] at h
      exact ih h

theorem isDirAt_cons_some (es : List (String × FS)) (t : String) (q : List String)
    (c : FS) (h : lookupE es t = some c) :
    isDirAt (FS.dir es) (t :: q) = isDirAt c q := by
  rw [isDirAt, h]

theorem isDirAt_cons_none (es : List (String × FS)) (t : String) (q : List String)
    (h : lookupE es t = none) : isDirAt (FS.dir es) (t :: q) = false := by
  rw [isDirAt, h]

theorem isDirAt_file (co : String) (q : List String) : isDirAt (FS.file co) q = false := by
  cases q <;> rfl

theorem isDirAt_tarFile (o : Bool) (pl : List (String × String)) (q : List String) :
    isDirAt (FS.tarFile o pl) q = false := by
  cases q <;> rfl

theorem mkdirp_isDirAt (p : List String) : ∀ (st st2 : FS),
    mkdirp st p = some st2 → isDirAt st2 p = true := by
  induction p with
  | nil =>
    intro st st2 h
    cases st with
    | dir es =>
      rw [mkdirp] at h
      injection h with h
      rw [← h]
      rfl
    | file co => simp [mkdirp] at h
    | tarFile o pl => simp [mkdirp] at h
  | cons s r ih =>
    intro st st2 h
    cases st with
    | file co => simp [mkdirp] at h
    | tarFile o pl => simp [mkdirp] at h
    | dir es =>
      rw [mkdirp] at h
      split at h
      · rename_i c heq
        split at h
        · rename_i hd
          rw [Option.map_eq_some'] at h
          obtain ⟨d, hm, hfd⟩ := h
          rw [← hfd,
            isDirAt_cons_some (replaceE es s d) s r d
              (lookupE_replaceE_self es s d (by rw [heq]; rfl))]
          exact ih c d hm
        · cases h
      · rename_i heq
        rw [Option.map_eq_some'] at h
        obtain ⟨d, hm, hfd⟩ := h
        rw [← hfd]
        have hl : lookupE (es ++ [(s, d)]) s = some d := by
          rw [lookupE_append_right es [(s, d)] s heq]
          exact lookupE_cons_pos (s, d) [] s (by simp)
        rw [isDirAt_cons_some (es ++ [(s, d)]) s r d hl]
        exact ih (.dir []) d hm

theorem mkdirp_preserves (p : List String) : ∀ (st st2 : FS) (q : List String),
    mkdirp st p = some st2 → isDirAt st q = true → isDirAt st2 q = true := by
  induction p with
  | nil =>
    intro st st2 q h hq
    cases st with
    | dir es =>
      rw [mkdirp] at h
      injection h with h
      rw [← h]
      exact hq
    | file co => simp [mkdirp] at h
    | tarFile o pl => simp [mkdirp] at h
  | cons s r ih =>
    intro st st2 q h hq
    cases st with
    | file co => simp [mkdirp] at h
    | tarFile o pl => simp [mkdirp] at h
    | dir es =>
      rw [mkdirp] at h
      split at h
      · rename_i c heq
        split at h
        · rename_i hd
          rw [Option.map_eq_some'] at h
          obtain ⟨d, hm, hfd⟩ := h
          rw [← hfd]
          cases q with
          | nil => rfl
          | cons t q2 =>
            by_cases ht : t = s
            · subst ht
              rw [isDirAt_cons_some es t q2 c heq] at hq
              rw [isDirAt_cons_some (replaceE es t d) t q2 d
                (lookupE_replaceE_self es t d (by rw [heq]; rfl))]
              exact ih c d q2 hm hq
            · cases hct : lookupE es t with
              | none => rw [isDirAt_cons_none es t q2 hct] at hq; cases hq
              | some ct =>
                rw [isDirAt_cons_some es t q2 ct hct] at hq
                rw [isDirAt_cons_some (replaceE es s d) t q2 ct
                  (by rw [lookupE_replaceE_other es s t d ht]; exact hct)]
                exact hq
        · cases h
      · rename_i heq
        rw [Option.map_eq_some'] at h
        obtain ⟨d, hm, hfd⟩ := h
        rw [← hfd]
        cases q with
        | nil => rfl
        | cons t q2 =>
          cases hct : lookupE es t with
          | none => rw [isDirAt_cons_none es t q2 hct] at hq; cases hq
          | some ct =>
            rw [isDirAt_cons_some es t q2 ct hct] at hq
            rw [isDirAt_cons_some (es ++ [(s, d)]) t q2 ct
              (lookupE_append_left es [(s, d)] t ct hct)]
            exact hq

theorem insertFileAt_preserves (dstDir : List String) : ∀ (st st2 : FS)
    (nm : String) (data : FS) (q : List String),
    insertFileAt st dstDir nm data = some st2 → isDirAt st q = true →
    isDirAt st2 q = true := by
  induction dstDir with
  | nil =>
    intro st st2 nm data q h hq
    cases st with
    | file co => simp [insertFileAt] at h
    | tarFile o pl => simp [insertFileAt] at h
    | dir es =>
      rw [insertFileAt] at h
      split at h
      · cases h
      · split at h
        · cases h
        · rename_i old hexcl heq
          injection h with h
          rw [← h]
          cases q with
          | nil => rfl
          | cons t q2 =>
            by_cases ht : t = nm
            · subst ht
              rw [isDirAt_cons_some es t q2 old heq] at hq
              cases old with
              | dir oes => exact (hexcl oes rfl).elim
              | file oc => rw [isDirAt_file] at hq; cases hq
              | tarFile oo opl => rw [isDirAt_tarFile] at hq; cases hq
            · cases hct : lookupE es t with
              | none => rw [isDirAt_cons_none es t q2 hct] at hq; cases hq
              | some ct =>
                rw [isDirAt_cons_some es t q2 ct hct] at hq
                rw [isDirAt_cons_some (replaceE es nm data) t q2 ct
                  (by rw [lookupE_replaceE_other es nm t data ht]; exact hct)]
                exact hq
        · rename_i heq
          injection h with h
          rw [← h]
          cases q with
          | nil => rfl
          | cons t q2 =>
            cases hct : lookupE es t with
            | none => rw [isDirAt_cons_none es t q2 hct] at hq; cases hq
            | some ct =>
              rw [isDirAt_cons_some es t q2 ct hct] at hq
              rw [isDirAt_cons_some (es ++ [(nm, data)]) t q2 ct
                (lookupE_append_left es [(nm, data)] t ct hct)]
              exact hq
  | cons s r ih =>
    intro st st2 nm data q h hq
    cases st with
    | file co => simp [insertFileAt] at h
    | tarFile o pl => simp [insertFileAt] at h
    | dir es =>
      rw [insertFileAt] at h
      split at h
      · rename_i c heq
        rw [Option.map_eq_some'] at h
        obtain ⟨d, hm, hfd⟩ := h
        rw [← hfd]
        cases q with
        | nil => rfl
        | cons t q2 =>
          by_cases ht : t = s
          · subst ht
            rw [isDirAt_cons_some es t q2 c heq] at hq
            rw [isDirAt_cons_some (replaceE es t d) t q2 d
              (lookupE_replaceE_self es t d (by rw [heq]; rfl))]
            exact ih c d nm data q2 hm hq
          · cases hct : lookupE es t with
            | none => rw [isDirAt_cons_none es t q2 hct] at hq; cases hq
            | some ct =>
              rw [isDirAt_cons_some es t q2 ct hct] at hq
              rw [isDirAt_cons_some (replaceE es s d) t q2 ct
                (by rw [lookupE_replaceE_other es s t d ht]; exact hct)]
              exact hq
      · cases h

mutual
theorem mergeList_preserves (dEs sEs m : List (String × FS))
    (h : mergeList dEs sEs = some m) (q : List String)
    (hq : isDirAt (FS.dir dEs) q = true) : isDirAt (FS.dir m) q = true := by
  cases sEs with
  | nil =>
    rw [mergeList] at h
    injection h with h
    rw [← h]
    exact hq
  | cons p rest =>
    rw [mergeList] at h
    split at h
    · rename_i d hme
      exact mergeList_preserves d rest m h q (mergeEntry_preserves dEs p.1 p.2 d hme q hq)
    · cases h

theorem mergeEntry_preserves (dEs : List (String × FS)) (nm : String) (e : FS)
    (m : List (String × FS)) (h : mergeEntry dEs nm e = some m) (q : List String)
    (hq : isDirAt (FS.dir dEs) q = true) : isDirAt (FS.dir m) q = true := by
  cases e with
  | dir sSub =>
    rw [mergeEntry] at h
    split at h
    · rename_i dSub heq
      rw [Option.map_eq_some'] at h
      obtain ⟨m2, hm2, hfm⟩ := h
      rw [← hfm]
      cases q with
      | nil => rfl
      | cons t q2 =>
        by_cases ht : t = nm
        · subst ht
          rw [isDirAt_cons_some dEs t q2 _ heq] at hq
          rw [isDirAt_cons_some (replaceE dEs t (FS.dir m2)) t q2 (FS.dir m2)
            (lookupE_replaceE_self dEs t (FS.dir m2) (by rw [heq]; rfl))]
          exact mergeList_preserves dSub sSub m2 hm2 q2 hq
        · cases hct : lookupE dEs t with
          | none => rw [isDirAt_cons_none dEs t q2 hct] at hq; cases hq
          | some ct =>
            rw [isDirAt_cons_some dEs t q2 ct hct] at hq
            rw [isDirAt_cons_some _ t q2 ct
              (by rw [lookupE_replaceE_other dEs nm t _ ht]; exact hct)]
            exact hq
    · cases h
    · rename_i heq
      injection h with h
      rw [← h]
      cases q with
      | nil => rfl
      | cons t q2 =>
        cases hct : lookupE dEs t with
        | none => rw [isDirAt_cons_none dEs t q2 hct] at hq; cases hq
        | some ct =>
          rw [isDirAt_cons_some dEs t q2 ct hct] at hq
          rw [isDirAt_cons_some _ t q2 ct
            (lookupE_append_left dEs [(nm, FS.dir sSub)] t ct hct)]
          exact hq
  | file co =>
    rw [show mergeEntry dEs nm (FS.file co) =
        (match lookupE dEs nm with
         | some (.dir _) => none
         | some _ => some (replaceE dEs nm (FS.file co))
         | none => some (dEs ++ [(nm, FS.file co)])) from rfl] at h
    split at h
    · cases h
    · rename_i old hexcl heq
      injection h with h
      rw [← h]
      cases q with
      | nil => rfl
      | cons t q2 =>
        by_cases ht : t = nm
        · subst ht
          rw [isDirAt_cons_some dEs t q2 old heq] at hq
          cases old with
          | dir oes => exact (hexcl oes rfl).elim
          | file oc => rw [isDirAt_file] at hq; cases hq
          | tarFile oo opl => rw [isDirAt_tarFile] at hq; cases hq
        · cases hct : lookupE dEs t with
          | none => rw [isDirAt_cons_none dEs t q2 hct] at hq; cases hq
          | some ct =>
            rw [isDirAt_cons_some dEs t q2 ct hct] at hq
            rw [isDirAt_cons_some _ t q2 ct
              (by rw [lookupE_replaceE_other dEs nm t _ ht]; exact hct)]
            exact hq
    · rename_i heq
      injection h with h
      rw [← h]
      cases q with
      | nil => rfl
      | cons t q2 =>
        cases hct : lookupE dEs t with
        | none => rw [isDirAt_cons_none dEs t q2 hct] at hq; cases hq
        | some ct =>
          rw [isDirAt_cons_some dEs t q2 ct hct] at hq
          rw [isDirAt_cons_some _ t q2 ct
            (lookupE_append_left dEs [(nm, FS.file co)] t ct hct)]
          exact hq
  | tarFile o pl =>
    rw [show mergeEntry dEs nm (FS.tarFile o pl) =
        (match lookupE dEs nm with
         | some (.dir _) => none
         | some _ => some (replaceE dEs nm (FS.tarFile o pl))
         | none => some (dEs ++ [(nm, FS.tarFile o pl)])) from rfl] at h
    split at h
    · cases h
    · rename_i old hexcl heq
      injection h with h
      rw [← h]
      cases q with
      | nil => rfl
      | cons t q2 =>
        by_cases ht : t = nm
        · subst ht
          rw [isDirAt_cons_some dEs t q2 old heq] at hq
          cases old with
          | dir oes => exact (hexcl oes rfl).elim
          | file oc => rw [isDirAt_file] at hq; cases hq
          | tarFile oo opl => rw [isDirAt_tarFile] at hq; cases hq
        · cases hct : lookupE dEs t with
          | none => rw [isDirAt_cons_none dEs t q2 hct] at hq; cases hq
          | some ct =>
            rw [isDirAt_cons_some dEs t q2 ct hct] at hq
            rw [isDirAt_cons_some _ t q2 ct
              (by rw [lookupE_replaceE_other dEs nm t _ ht]; exact hct)]
            exact hq
    · rename_i heq
      injection h with h
      rw [← h]
      cases q with
      | nil => rfl
      | cons t q2 =>
        cases hct : lookupE dEs t with
        | none => rw [isDirAt_cons_none dEs t q2 hct] at hq; cases hq
        | some ct =>
          rw [isDirAt_cons_some dEs t q2 ct hct] at hq
          rw [isDirAt_cons_some _ t q2 ct
            (lookupE_append_left dEs [(nm, FS.tarFile o pl)] t ct hct)]
          exact hq
end

theorem mergeAt_preserves (p : List String) : ∀ (st st2 : FS)
    (tEs : List (String × FS)) (q : List String),
    mergeAt st p tEs = some st2 → isDirAt st q = true → isDirAt st2 q = true := by
  induction p with
  | nil =>
    intro st st2 tEs q h hq
    cases st with
    | file co => simp [mergeAt] at h
    | tarFile o pl => simp [mergeAt] at h
    | dir es =>
      rw [mergeAt] at h
      rw [Option.map_eq_some'] at h
      obtain ⟨m, hm, hfm⟩ := h
      rw [← hfm]
      exact mergeList_preserves es tEs m hm q hq
  | cons s r ih =>
    intro st st2 tEs q h hq
    cases st with
    | file co => simp [mergeAt] at h
    | tarFile o pl => simp [mergeAt] at h
    | dir es =>
      rw [mergeAt] at h
      split at h
      · rename_i c heq
        rw [Option.map_eq_some'] at h
        obtain ⟨d, hm, hfd⟩ := h
        rw [← hfd]
        cases q with
        | nil => rfl
        | cons t q2 =>
          by_cases ht : t = s
          · subst ht
            rw [isDirAt_cons_some es t q2 c heq] at hq
            rw [isDirAt_cons_some (replaceE es t d) t q2 d
              (lookupE_replaceE_self es t d (by rw [heq]; rfl))]
            exact ih c d tEs q2 hm hq
          · cases hct : lookupE es t with
            | none => rw [isDirAt_cons_none es t q2 hct] at hq; cases hq
            | some ct =>
              rw [isDirAt_cons_some es t q2 ct hct] at hq
              rw [isDirAt_cons_some (replaceE es s d) t q2 ct
                (by rw [lookupE_replaceE_other es s t d ht]; exact hct)]
              exact hq
      · cases h

theorem insertTreeAt_preserves (st st2 : FS) (dstDir : List String) (nm : String)
    (tree : FS) (q : List String) (h : insertTreeAt st dstDir nm tree = some st2)
    (hq : isDirAt st q = true) : isDirAt st2 q = true := by
  cases tree with
  | file co => simp [insertTreeAt] at h
  | tarFile o pl => simp [insertTreeAt] at h
  | dir tEs =>
    rw [insertTreeAt] at h
    split at h
    · rename_i st1 hmk
      exact mergeAt_preserves (dstDir ++ [nm]) st1 st2 tEs q h
        (mkdirp_preserves (dstDir ++ [nm]) st st1 q hmk hq)
    · cases h

theorem applyOp_preserves (st st2 : FS) (op : Op) (q : List String)
    (h : applyOp st op = some st2) (hq : isDirAt st q = true) :
    isDirAt st2 q = true := by
  cases op with
  | mkdir p => exact mkdirp_preserves p st st2 q h hq
  | copyFile src data dstDir nm => exact insertFileAt_preserves dstDir st st2 nm data q h hq
  | copyTree src tree dstDir nm => exact insertTreeAt_preserves st st2 dstDir nm tree q h hq

theorem applyOps_preserves (ops : List Op) : ∀ (st st2 : FS) (q : List String),
    applyOps st ops = some st2 → isDirAt st q = true → isDirAt st2 q = true := by
  induction ops with
  | nil =>
    intro st st2 q h hq
    rw [applyOps] at h
    injection h with h
    rw [← h]
    exact hq
  | cons o rest ih =>
    intro st st2 q h hq
    rw [applyOps] at h
    split at h
    · rename_i st1 ho
      exact ih st1 st2 q h (applyOp_preserves st st1 o q ho hq)
    · cases h

theorem applyOps_mkdir_mem (ops : List Op) : ∀ (st out : FS) (p : List String),
    applyOps st ops = some out → Op.mkdir p ∈ ops → isDirAt out p = true := by
  induction ops with
  | nil =>
    intro st out p h hmem
    cases hmem
  | cons o rest ih =>
    intro st out p h hmem
    rw [applyOps] at h
    split at h
    · rename_i st1 ho
      rcases List.mem_cons.mp hmem with rfl | hmem2
      · exact applyOps_preserves rest st1 out p h (mkdirp_isDirAt p st st1 ho)
      · exact ih st1 out p h hmem2
    · cases h

/-- C2 amended: the engine creates the canonical directory skeleton per
SUT, not globally up front — before any mapper write lands in the subtree
of a canonical SUT id, all four canonical mkdir operations of that id have
already appeared earlier in the trace (first conjunct); and whenever the
trace executes to completion against a fresh output root, the three
canonical directories of every discovered SUT exist in the final output
tree, even when no artifact was copied into them (second conjunct).  The
claim as frozen, that every discovered SUT has its directories created
before the first mapper write of the whole run, is refuted by the
counterexample. -/
theorem C2_canonical_dirs_per_sut :
    (∀ (src : FS) (pre suf : List Op) (op : Op) (c : String),
      case1Trace src = pre ++ op :: suf → op.isWrite = true → op.dstHead = some c →
      ∀ d ∈ canonicalDirs c, Op.mkdir d ∈ pre) ∧
    (∀ (src : FS) (out : FS), applyOps (FS.dir []) (case1Trace src) = some out →
      ∀ sut ∈ sutsOf src, ∀ d ∈ canonicalDirs (sutName sut), isDirAt out d = true) := by
  constructor
  · exact case1_writes_after_mkdirs
  · intro src out h sut hsut d hd
    have hmem : Op.mkdir d ∈ case1Trace src := by
      rw [case1Trace]
      exact List.mem_append_left _
        (List.mem_flatMap.mpr ⟨sut, hsut, mkdir_mem_sutBlock src sut d hd⟩)
    exact applyOps_mkdir_mem (case1Trace src) (FS.dir []) out d h hmem

/-- Formalization of the C2 claim as frozen: for every discovered SUT,
every canonical directory creation precedes every mapper write of the
whole trace. -/
def c2EagerClaim (src : FS) : Prop :=
  ∀ sut ∈ sutsOf src, ∀ d ∈ canonicalDirs (sutName sut),
    ∀ j op, (case1Trace src).get? j = some op → op.isWrite = true →
      Op.mkdir d ∈ (case1Trace src).take j

/-- Counterexample source for C2: two raw SUT folders, the first of which
has a run directory with a file. -/
def c2src : FS := .dir
  [("vm1", .dir [("r", .dir [("f.txt", .file "x")])]),
   ("vm2", .dir [])]

theorem c2Trace_eq : case1Trace c2src =
    [Op.mkdir ["SUT1"], Op.mkdir ["SUT1", "PlatformProfiler"],
     Op.mkdir ["SUT1", "WorkloadProfiler"], Op.mkdir ["SUT1", "Results"],
     Op.mkdir ["SUT1", "Results", "run1", "iteration1", "instance1"],
     Op.copyFile ["vm1", "r", "f.txt"] (.file "x")
       ["SUT1", "Results", "run1", "iteration1", "instance1"] "f.txt",
     Op.mkdir ["SUT2"], Op.mkdir ["SUT2", "PlatformProfiler"],
     Op.mkdir ["SUT2", "WorkloadProfiler"], Op.mkdir ["SUT2", "Results"]] := rfl

/-- C2 counterexample: on c2src the copy for the first SUT (trace index 5)
happens before the canonical directories of the second discovered SUT are
created (trace indices 6-9), refuting the claim that the directories of
every discovered SUT exist before any mapper write. -/
theorem C2_eager_creation_counterexample : ¬ c2EagerClaim c2src := by
  intro h
  have h5 := h "vm2" (by decide) ["SUT2", "PlatformProfiler"] (by decide) 5
    (Op.copyFile ["vm1", "r", "f.txt"] (.file "x")
      ["SUT1", "Results", "run1", "iteration1", "instance1"] "f.txt") rfl rfl
  rw [c2Trace_eq] at h5
  simp [List.take] at h5

theorem C2_canonical_dirs_per_sut_witness :
    Op.mkdir ["SUT1"] ∈
      [Op.mkdir ["SUT1"], Op.mkdir ["SUT1", "PlatformProfiler"],
       Op.mkdir ["SUT1", "WorkloadProfiler"], Op.mkdir ["SUT1", "Results"],
       Op.mkdir ["SUT1", "Results", "run1", "iteration1", "instance1"]] ∧
    (∃ out, applyOps (FS.dir []) (case1Trace c2src) = some out ∧
      isDirAt out ["SUT2", "PlatformProfiler"] = true) := by
  constructor
  · exact C2_canonical_dirs_per_sut.1 c2src
      [Op.mkdir ["SUT1"], Op.mkdir ["SUT1", "PlatformProfiler"],
       Op.mkdir ["SUT1", "WorkloadProfiler"], Op.mkdir ["SUT1", "Results"],
       Op.mkdir ["SUT1", "Results", "run1", "iteration1", "instance1"]]
      [Op.mkdir ["SUT2"], Op.mkdir ["SUT2", "PlatformProfiler"],
       Op.mkdir ["SUT2", "WorkloadProfiler"], Op.mkdir ["SUT2", "Results"]]
      (Op.copyFile ["vm1", "r", "f.txt"] (.file "x")
        ["SUT1", "Results", "run1", "iteration1", "instance1"] "f.txt")
      "SUT1" (by rw [c2Trace_eq]; rfl) rfl rfl ["SUT1"] (by decide)
  · have hs : (applyOps (FS.dir []) (case1Trace c2src)).isSome = true := rfl
    obtain ⟨out, hout⟩ := Option.isSome_iff_exists.mp hs
    exact ⟨out, hout, C2_canonical_dirs_per_sut.2 c2src out hout "vm2" (by decide)
      ["SUT2", "PlatformProfiler"] (by decide)⟩

/-- Concrete multi-system source for the C8 witness: one SUT folder and
one root-level file. -/
def c8src : FS := .dir [("vm1", .dir []), ("root.json", .file "r")]

theorem C8_root_file_replication_witness :
    Op.copyFile ["root.json"] (FS.file "r") ["SUT1"] "root.json" ∈ rootOpsMulti c8src :=
  (C8_root_file_replication.1 c8src _).mpr
    ⟨"root.json", FS.file "r", "vm1",
     List.mem_cons_of_mem _ (List.mem_cons_self _ _), rfl, by decide, rfl⟩
